import Mathlib

/-!
Verification of the patient queue and status-transition engine of the
Eye-Hospital backend (`src/backend/routers/patients.py`) against its
natural-language specification.

The router's handlers are embedded as pure functions on an explicit database
state `DB`.  The ORM layer (`database_sqlite.py`, defining `Patient`, `Queue`,
`PatientFlow`, `PatientStatus`, `OPDType`) is not part of the sources, so those
record types are modelled from the spec (§3 of the design document); the
handler bodies are translated from the router source.  Timestamps and the
current date are passed in explicitly (`now : Nat`, `today : String`), standing
for `datetime.now()` / `datetime.utcnow()` / `strftime("%Y%m%d")`.  A handler
that raises `HTTPException` (patient not found) returns `none`, and no state is
mutated in that case.
-/

namespace EyeHospital

/-- Modelled from the spec: `database_sqlite.py` (defining `PatientStatus`) is
missing from the sources; §3 lists {PENDING, DILATED, REFERRED, COMPLETED,
…domain-specific others}.  `IN_CONSULTATION` stands for the remaining
domain-specific statuses. -/
inductive PatientStatus where
  | PENDING
  | DILATED
  | REFERRED
  | COMPLETED
  | IN_CONSULTATION

deriving instance DecidableEq, Repr for PatientStatus

/-- Modelled from the spec: `database_sqlite.py` (defining `OPDType`) is
missing from the sources; department names are taken from the spec scenarios
("eye", "ent") plus one further department. -/
inductive OPDType where
  | eye
  | ent
  | general

deriving instance DecidableEq, Repr for OPDType

/-- The `.value` string of an `OPDType` member. -/
def OPDType.value : OPDType → String
  | .eye => "eye"
  | .ent => "ent"
  | .general => "general"

/-- All members of the `OPDType` enumeration. -/
def OPDType.all : List OPDType := [.eye, .ent, .general]

/-- Modelled from the spec: the `Patient` ORM row (§3).  Timestamps are
abstract `Nat` instants. -/
structure Patient where
  id : Nat
  token_number : String
  name : String
  age : Nat
  phone : Option String
  registration_time : Nat
  current_status : PatientStatus
  allocated_opd : Option OPDType
  current_room : Option String
  is_dilated : Bool
  dilation_time : Option Nat
  referred_from : Option String
  referred_to : Option String
  completed_at : Option Nat

deriving instance DecidableEq, Repr for Patient

/-- Modelled from the spec: the `Queue` ORM row (§3 "QueueEntry"): membership
of one patient in one department's waiting line. -/
structure Queue where
  opd_type : OPDType
  patient_id : Nat
  position : Nat
  status : PatientStatus
  updated_at : Option Nat

deriving instance DecidableEq, Repr for Queue

/-- Modelled from the spec: the `PatientFlow` ORM row (§3 "FlowEvent"). -/
structure PatientFlow where
  patient_id : Nat
  from_room : Option String
  to_room : Option String
  status : PatientStatus
  notes : Option String

deriving instance DecidableEq, Repr for PatientFlow

/-- The persistent state: the three tables plus the autoincrement counter for
`Patient.id`.  Rows are kept in insertion (primary-key) order, so
`order_by(Patient.id.desc()).first()` is the last matching list element. -/
structure DB where
  patients : List Patient
  queue : List Queue
  flow : List PatientFlow
  nextId : Nat

deriving instance DecidableEq, Repr for DB

/-- The empty database; SQLite autoincrement ids start at 1. -/
def emptyDB : DB := { patients := [], queue := [], flow := [], nextId := 1 }

/-- Decimal digits of `n`, most significant first (Python `str(n)`). -/
def natToDigits (n : Nat) : List Char :=
  if _h : n < 10 then [Nat.digitChar n]
  else natToDigits (n / 10) ++ [Nat.digitChar (n % 10)]
termination_by n
decreasing_by exact Nat.div_lt_self (by omega) (by omega)

/-- Python `f"{n:04d}"`: the decimal representation zero-padded to width 4. -/
def pad4 (n : Nat) : List Char :=
  List.replicate (4 - (natToDigits n).length) '0' ++ natToDigits n

/-- `f"{today}-{new_number:04d}"`. -/
def renderToken (today : String) (n : Nat) : String :=
  ⟨today.data ++ '-' :: pad4 n⟩

/-- SQL `Patient.token_number.like(f"{today}%")`: prefix match. -/
def likeToday (today tok : String) : Bool := decide (today.data <+: tok.data)

/-- Python `s.split(sep)` on the character list. -/
def splitOnChar (sep : Char) : List Char → List (List Char)
  | [] => [[]]
  | c :: cs =>
    match splitOnChar sep cs with
    | [] => [[]]
    | h :: t => if c = sep then [] :: h :: t else (c :: h) :: t

/-- `token_number.split('-')[-1]`. -/
def tokenSuffix (tok : String) : List Char :=
  (splitOnChar '-' tok.data).getLastD []

/-- Python `int(s)` on a string of plain decimal digits; `none` models the
`ValueError` raised on malformed input. -/
def parseDigits (l : List Char) : Option Nat :=
  if l ≠ [] ∧ ∀ c ∈ l, c.isDigit then
    some (l.foldl (fun n c => n * 10 + (c.toNat - 48)) 0)
  else none

/-- `generate_token_number` (patients.py lines 82-94): take the last (highest
id) patient whose token number starts with today's date, increment its parsed
numeric suffix, or start at 1; `none` models the exception `int` would raise on
a malformed suffix. -/
def generate_token_number (db : DB) (today : String) : Option String :=
  match (db.patients.filter (fun p => likeToday today p.token_number)).getLast? with
  | some last_token =>
    match parseDigits (tokenSuffix last_token.token_number) with
    | some last_number => some (renderToken today (last_number + 1))
    | none => none
  | none => some (renderToken today 1)

/-- The parsed numeric suffix of a token, defaulting to 0; used only to state
theorems about well-formed tokens. -/
def tokSeq (tok : String) : Nat := (parseDigits (tokenSuffix tok)).getD 0

/-- `register_patient` (patients.py lines 96-127). -/
def register_patient (db : DB) (name : String) (age : Nat) (phone : Option String)
    (today : String) (now : Nat) : Option (DB × Patient) :=
  match generate_token_number db today with
  | none => none
  | some token_number =>
    let db_patient : Patient :=
      { id := db.nextId, token_number := token_number, name := name, age := age,
        phone := phone, registration_time := now,
        current_status := PatientStatus.PENDING, allocated_opd := none,
        current_room := none, is_dilated := false, dilation_time := none,
        referred_from := none, referred_to := none, completed_at := none }
    let flow_entry : PatientFlow :=
      { patient_id := db_patient.id, from_room := none, to_room := some "registration",
        status := PatientStatus.PENDING, notes := none }
    some ({ db with
            patients := db.patients ++ [db_patient],
            flow := db.flow ++ [flow_entry],
            nextId := db.nextId + 1 },
          db_patient)

/-- SQLAlchemy filter `Queue.patient_id == pid, Queue.opd_type == opd` where
`opd` may be NULL: a comparison with NULL matches no row. -/
def queueMatch (e : Queue) (pid : Nat) (opd : Option OPDType) : Bool :=
  e.patient_id == pid &&
    (match opd with
     | some o => e.opd_type == o
     | none => false)

/-- `db.query(func.max(Queue.position)).filter(Queue.opd_type == opd).scalar() or 0`. -/
def maxPosIn (q : List Queue) (opd : OPDType) : Nat :=
  (q.filter (fun e => e.opd_type == opd)).foldr (fun e m => max e.position m) 0

/-- In-place mutation of the first row returned by `.first()`. -/
def updateFirst (q : List Queue) (pred : Queue → Bool) (f : Queue → Queue) : List Queue :=
  match q with
  | [] => []
  | e :: es => if pred e then f e :: es else e :: updateFirst es pred f

/-- `allocate_opd` (patients.py lines 159-205); the returned `Nat` is the
`queue_position` of the response. -/
def allocate_opd (db : DB) (patient_id : Nat) (opd_type : OPDType) : Option (DB × Nat) :=
  match db.patients.find? (fun p => p.id == patient_id) with
  | none => none
  | some patient =>
    let patient' := { patient with
      allocated_opd := some opd_type,
      current_room := some ("opd_" ++ opd_type.value) }
    let max_position := maxPosIn db.queue opd_type
    let queue_entry : Queue :=
      { opd_type := opd_type, patient_id := patient_id, position := max_position + 1,
        status := PatientStatus.PENDING, updated_at := none }
    let flow_entry : PatientFlow :=
      { patient_id := patient_id, from_room := some "registration",
        to_room := some ("opd_" ++ opd_type.value),
        status := PatientStatus.PENDING, notes := none }
    some ({ db with
            patients := db.patients.map (fun q => if q.id == patient_id then patient' else q),
            queue := db.queue ++ [queue_entry],
            flow := db.flow ++ [flow_entry] },
          max_position + 1)

/-- `update_patient_status` (patients.py lines 218-271).  The COMPLETED branch
deletes the queue rows for the currently allocated department before the common
"update queue status" lookup runs, so that lookup then finds nothing. -/
def update_patient_status (db : DB) (patient_id : Nat) (status : PatientStatus)
    (notes : Option String) (now : Nat) : Option DB :=
  match db.patients.find? (fun p => p.id == patient_id) with
  | none => none
  | some patient =>
    let patient' :=
      if status = PatientStatus.DILATED then
        { patient with
          current_status := status,
          is_dilated := true,
          dilation_time := some now }
      else if status = PatientStatus.COMPLETED then
        { patient with current_status := status, completed_at := some now }
      else
        { patient with current_status := status }
    let queue1 :=
      if status = PatientStatus.COMPLETED then
        db.queue.filter (fun e => ! queueMatch e patient_id patient.allocated_opd)
      else db.queue
    let queue2 :=
      updateFirst queue1 (fun e => queueMatch e patient_id patient.allocated_opd)
        (fun e => { e with status := status, updated_at := some now })
    let flow_entry : PatientFlow :=
      { patient_id := patient_id, from_room := patient.current_room, to_room := none,
        status := status, notes := notes }
    some { db with
           patients := db.patients.map (fun q => if q.id == patient_id then patient' else q),
           queue := queue2, flow := db.flow ++ [flow_entry] }

/-- `refer_patient` (patients.py lines 273-338). -/
def refer_patient (db : DB) (patient_id : Nat) (to_opd : OPDType) : Option DB :=
  match db.patients.find? (fun p => p.id == patient_id) with
  | none => none
  | some patient =>
    let from_opd := patient.allocated_opd
    let patient' := { patient with
      referred_from := from_opd.map OPDType.value,
      referred_to := some to_opd.value,
      current_status := PatientStatus.REFERRED }
    let queue1 :=
      match from_opd with
      | some f =>
        updateFirst db.queue (fun e => e.patient_id == patient_id && e.opd_type == f)
          (fun e => { e with status := PatientStatus.REFERRED })
      | none => db.queue
    let queue2 :=
      if (queue1.find? (fun e => e.patient_id == patient_id && e.opd_type == to_opd)).isSome then
        updateFirst queue1 (fun e => e.patient_id == patient_id && e.opd_type == to_opd)
          (fun e => { e with status := PatientStatus.REFERRED })
      else
        queue1 ++ [{ opd_type := to_opd, patient_id := patient_id,
                     position := maxPosIn queue1 to_opd + 1,
                     status := PatientStatus.REFERRED, updated_at := none }]
    let flow_entry : PatientFlow :=
      { patient_id := patient_id,
        from_room := from_opd.map (fun f => "opd_" ++ f.value),
        to_room := some ("opd_" ++ to_opd.value),
        status := PatientStatus.REFERRED,
        notes := some ("Referred from " ++
          (match from_opd with
           | some f => f.value
           | none => "registration") ++ " to " ++ to_opd.value) }
    some { db with
           patients := db.patients.map (fun q => if q.id == patient_id then patient' else q),
           queue := queue2, flow := db.flow ++ [flow_entry] }

/-- `end_patient_visit` (patients.py lines 413-464).  The stray assignment
`patient.status = PatientStatus.COMPLETED` targets a column the `Patient` model
does not have; it creates a transient Python attribute with no persistent
effect and is therefore not modelled. -/
def end_patient_visit (db : DB) (patient_id : Nat) (now : Nat) : Option DB :=
  match db.patients.find? (fun p => p.id == patient_id) with
  | none => none
  | some patient =>
    let from_room := patient.current_room
    let patient' := { patient with
      current_status := PatientStatus.COMPLETED,
      completed_at := some now,
      current_room := none,
      allocated_opd := none,
      referred_from := none,
      referred_to := none }
    let flow_entry : PatientFlow :=
      { patient_id := patient_id, from_room := from_room, to_room := some "completed",
        status := PatientStatus.COMPLETED, notes := some "Patient visit completed" }
    some { db with
           patients := db.patients.map (fun q => if q.id == patient_id then patient' else q),
           queue := db.queue.filter (fun e => ! (e.patient_id == patient_id)),
           flow := db.flow ++ [flow_entry] }

/-- SQL `ORDER BY registration_time DESC` comparison. -/
def regDesc (a b : Patient) : Bool := decide (b.registration_time ≤ a.registration_time)

/-- SQL `ORDER BY registration_time ASC` comparison. -/
def regAsc (a b : Patient) : Bool := decide (a.registration_time ≤ b.registration_time)

/-- `get_patients` (patients.py lines 381-409). -/
def get_patients (db : DB) (skip limit : Nat) (status : Option PatientStatus)
    (latest : Bool) : List Patient :=
  let q : List Patient :=
    match status with
    | some st => db.patients.filter (fun p => p.current_status == st)
    | none => db.patients
  if latest then
    (q.mergeSort regDesc).take 5
  else
    ((q.mergeSort regDesc).drop skip).take limit

/-- `{opd.value for opd in OPDType}`. -/
def validOpdValues : List String := OPDType.all.map OPDType.value

/-- The `ReferredPatientResponse` pydantic model (patients.py lines 68-78). -/
structure ReferredPatientResponse where
  id : Nat
  token_number : String
  name : String
  age : Nat
  registration_time : Nat
  from_opd : Option String
  to_opd : Option String

deriving instance DecidableEq, Repr for ReferredPatientResponse

/-- The response mapping of `list_referred_patients` (patients.py lines 147-157). -/
def toReferredResponse (p : Patient) : ReferredPatientResponse :=
  { id := p.id, token_number := p.token_number, name := p.name, age := p.age,
    registration_time := p.registration_time, from_opd := p.referred_from,
    to_opd := p.referred_to }

/-- `list_referred_patients` (patients.py lines 130-157).  A filter value is
applied only when it is truthy (non-empty) and a member of the `OPDType`
value set. -/
def list_referred_patients (db : DB) (from_opd to_opd : Option String) :
    List ReferredPatientResponse :=
  let q0 := db.patients.filter (fun p => p.current_status == PatientStatus.REFERRED)
  let q1 : List Patient :=
    match from_opd with
    | some s =>
      if s ≠ "" ∧ s ∈ validOpdValues then
        q0.filter (fun p => p.referred_from == some s)
      else q0
    | none => q0
  let q2 : List Patient :=
    match to_opd with
    | some s =>
      if s ≠ "" ∧ s ∈ validOpdValues then
        q1.filter (fun p => p.referred_to == some s)
      else q1
    | none => q1
  (q2.mergeSort regAsc).map toReferredResponse

/-- One external request against the engine. -/
inductive Op where
  | register (name : String) (age : Nat) (phone : Option String) (today : String) (now : Nat)
  | allocate (patient_id : Nat) (opd_type : OPDType)
  | setStatus (patient_id : Nat) (status : PatientStatus) (notes : Option String) (now : Nat)
  | refer (patient_id : Nat) (to_opd : OPDType)
  | endVisit (patient_id : Nat) (now : Nat)

/-- Run one request; a failing request (HTTP error) commits nothing. -/
def applyOp (db : DB) : Op → DB
  | .register name age phone today now =>
    match register_patient db name age phone today now with
    | some (db', _) => db'
    | none => db
  | .allocate pid opd =>
    match allocate_opd db pid opd with
    | some (db', _) => db'
    | none => db
  | .setStatus pid st notes now => (update_patient_status db pid st notes now).getD db
  | .refer pid t => (refer_patient db pid t).getD db
  | .endVisit pid now => (end_patient_visit db pid now).getD db

/-- `datetime.now().strftime("%Y%m%d")` always yields an 8-digit string. -/
def dayWF (d : String) : Prop := d.data.length = 8 ∧ ∀ c ∈ d.data, c.isDigit

instance (d : String) : Decidable (dayWF d) := by
  unfold dayWF
  infer_instance

/-- The date argument of a request is a real `strftime("%Y%m%d")` output. -/
def Op.wf : Op → Prop
  | .register _ _ _ today _ => dayWF today
  | _ => True

/-- Database states reachable from the empty database by runs of requests. -/
inductive Reachable : DB → Prop where
  | empty : Reachable emptyDB
  | step (db : DB) (op : Op) : Reachable db → op.wf → Reachable (applyOp db op)

/-- The identifying part of a queue row: department, patient and position
(everything except the mutable status/timestamp). -/
def queueKey (e : Queue) : OPDType × Nat × Nat := (e.opd_type, e.patient_id, e.position)

/-- Positions are strictly increasing in creation (insertion) order within
each department; uniqueness per department follows. -/
def posOrdered (q : List Queue) : Prop :=
  q.Pairwise (fun a b => a.opd_type = b.opd_type → a.position < b.position)

/-- Structural invariant maintained by every request. -/
structure Inv (db : DB) : Prop where
  ids_lt : ∀ p ∈ db.patients, p.id < db.nextId
  ids_nodup : db.patients.Pairwise (fun p q => p.id ≠ q.id)
  tokens_wf : ∀ p ∈ db.patients, ∃ d n, dayWF d ∧ p.token_number = renderToken d n
  tokens_mono : db.patients.Pairwise (fun p q => ∀ d n m, dayWF d →
    p.token_number = renderToken d n → q.token_number = renderToken d m → n < m)
  pos_mono : posOrdered db.queue
  completed_stamped : ∀ p ∈ db.patients,
    p.current_status = PatientStatus.COMPLETED → p.completed_at.isSome = true

/-- The maximal parsed numeric suffix among the patients whose token number
carries today's date prefix (`0` when there are none). -/
def maxSeqToday (db : DB) (today : String) : Nat :=
  ((db.patients.filter (fun p => likeToday today p.token_number)).map
    (fun p => tokSeq p.token_number)).foldr max 0

/-- Example run: one patient registered on 2026-01-01. -/
def exDB1 : DB := applyOp emptyDB (Op.register "Asha" 30 none "20260101" 0)

/-- …then allocated to the eye department. -/
def exDB2 : DB := applyOp exDB1 (Op.allocate 1 OPDType.eye)

/-- …then completed through the generic status update (the queue entry is
deleted but `allocated_opd` stays set). -/
def exDB3 : DB := applyOp exDB2 (Op.setStatus 1 PatientStatus.COMPLETED none 20)

/-- …then referred to the ent department while no origin queue entry exists. -/
def exDBRef : DB := applyOp exDB3 (Op.refer 1 OPDType.ent)

/-- Allocated patient dilated at time 5. -/
def exDBDil1 : DB := applyOp exDB2 (Op.setStatus 1 PatientStatus.DILATED none 5)

/-- …and dilated again at time 9. -/
def exDBDil2 : DB := applyOp exDBDil1 (Op.setStatus 1 PatientStatus.DILATED none 9)

/-- Completed patient moved back to PENDING by a later status update. -/
def exDBPend : DB := applyOp exDB3 (Op.setStatus 1 PatientStatus.PENDING none 30)

/-- The allocated patient row as stored in `exDB2`. -/
def exPatient2 : Patient :=
  { id := 1, token_number := renderToken "20260101" 1, name := "Asha", age := 30,
    phone := none, registration_time := 0, current_status := PatientStatus.PENDING,
    allocated_opd := some OPDType.eye, current_room := some "opd_eye",
    is_dilated := false, dilation_time := none, referred_from := none,
    referred_to := none, completed_at := none }

/-- Allocated patient referred from eye to ent. -/
def exDBRef2 : DB := applyOp exDB2 (Op.refer 1 OPDType.ent)

/-- Allocated patient completed through the generic status update. -/
def exDBDone : DB := exDB3

/-- Allocated patient whose visit is ended. -/
def exDBEnd : DB := applyOp exDB2 (Op.endVisit 1 40)

/-! ### Digit, padding and token-string lemmas -/

theorem digitChar_toNat {k : Nat} (h : k < 10) : (Nat.digitChar k).toNat = 48 + k := by
  interval_cases k <;> decide

theorem digitChar_isDigit {k : Nat} (h : k < 10) : (Nat.digitChar k).isDigit = true := by
  interval_cases k <;> decide

theorem natToDigits_ne_nil (n : Nat) : natToDigits n ≠ [] := by
  rw [natToDigits]
  split <;> simp

theorem natToDigits_isDigit (n : Nat) : ∀ c ∈ natToDigits n, c.isDigit = true := by
  induction n using Nat.strong_induction_on with
  | _ n ih =>
    rw [natToDigits]
    split
    · next h =>
      intro c hc
      rw [List.mem_singleton] at hc
      subst hc
      exact digitChar_isDigit h
    · next h =>
      intro c hc
      rw [List.mem_append] at hc
      rcases hc with hc | hc
      · exact ih (n / 10) (Nat.div_lt_self (by omega) (by omega)) c hc
      · rw [List.mem_singleton] at hc
        subst hc
        exact digitChar_isDigit (Nat.mod_lt _ (by omega))

theorem natToDigits_foldl (n : Nat) : ∀ acc : Nat,
    (natToDigits n).foldl (fun m c => m * 10 + (c.toNat - 48)) acc
      = acc * 10 ^ (natToDigits n).length + n := by
  induction n using Nat.strong_induction_on with
  | _ n ih =>
    intro acc
    rw [natToDigits]
    split
    · next h =>
      simp only [List.foldl_cons, List.foldl_nil, List.length_singleton, pow_one,
        digitChar_toNat h]
      omega
    · next h =>
      rw [List.foldl_append]
      rw [ih (n / 10) (Nat.div_lt_self (by omega) (by omega)) acc]
      simp only [List.foldl_cons, List.foldl_nil, List.length_append,
        List.length_singleton, digitChar_toNat (show n % 10 < 10 by omega)]
      have hdm : 10 * (n / 10) + n % 10 = n := Nat.div_add_mod n 10
      rw [pow_succ, ← mul_assoc]
      omega

theorem foldl_replicate_zero (k : Nat) :
    (List.replicate k '0').foldl (fun m c => m * 10 + (c.toNat - 48)) 0 = 0 := by
  induction k with
  | zero => rfl
  | succ k ih =>
    rw [List.replicate_succ, List.foldl_cons]
    simpa using ih

theorem pad4_ne_nil (n : Nat) : pad4 n ≠ [] := by
  unfold pad4
  intro h
  rcases List.append_eq_nil.mp h with ⟨-, h2⟩
  exact natToDigits_ne_nil n h2

theorem pad4_isDigit (n : Nat) : ∀ c ∈ pad4 n, c.isDigit = true := by
  intro c hc
  unfold pad4 at hc
  rw [List.mem_append] at hc
  rcases hc with hc | hc
  · rw [List.eq_of_mem_replicate hc]
    decide
  · exact natToDigits_isDigit n c hc

theorem parseDigits_pad4 (n : Nat) : parseDigits (pad4 n) = some n := by
  unfold parseDigits
  rw [if_pos ⟨pad4_ne_nil n, pad4_isDigit n⟩]
  congr 1
  unfold pad4
  rw [List.foldl_append, foldl_replicate_zero, natToDigits_foldl]
  simp

theorem splitOnChar_ne_nil (sep : Char) (l : List Char) : splitOnChar sep l ≠ [] := by
  induction l with
  | nil => simp [splitOnChar]
  | cons c cs ih =>
    rcases h : splitOnChar sep cs with _ | ⟨hd, tl⟩
    · exact absurd h ih
    · rw [splitOnChar, h]
      by_cases hc : c = sep <;> simp [hc]

theorem splitOnChar_of_not_mem {sep : Char} {l : List Char} (h : sep ∉ l) :
    splitOnChar sep l = [l] := by
  induction l with
  | nil => rfl
  | cons c cs ih =>
    have hc : ¬ c = sep := fun e => h (e ▸ List.mem_cons_self c cs)
    rw [splitOnChar, ih (fun hm => h (List.mem_cons_of_mem _ hm))]
    simp [hc]

theorem splitOnChar_append {sep : Char} {d : List Char} (h : sep ∉ d) (r : List Char) :
    splitOnChar sep (d ++ sep :: r) = d :: splitOnChar sep r := by
  induction d with
  | nil =>
    rcases hr : splitOnChar sep r with _ | ⟨hd, tl⟩
    · exact absurd hr (splitOnChar_ne_nil sep r)
    · simp [splitOnChar, hr]
  | cons c d ih =>
    have hc : ¬ c = sep := fun e => h (e ▸ List.mem_cons_self c d)
    have hd : sep ∉ d := fun hm => h (List.mem_cons_of_mem _ hm)
    rw [List.cons_append, splitOnChar, ih hd]
    simp [hc]

theorem isDigit_ne_dash {c : Char} (h : c.isDigit = true) : c ≠ '-' := by
  intro e
  subst e
  simp [Char.isDigit] at h

theorem dash_not_mem_pad4 (n : Nat) : '-' ∉ pad4 n := fun hm =>
  isDigit_ne_dash (pad4_isDigit n '-' hm) rfl

theorem tokenSuffix_renderToken {d : String} (hd : ∀ c ∈ d.data, c.isDigit = true)
    (n : Nat) : tokenSuffix (renderToken d n) = pad4 n := by
  have hd' : '-' ∉ d.data := fun hm => isDigit_ne_dash (hd _ hm) rfl
  show (splitOnChar '-' (d.data ++ '-' :: pad4 n)).getLastD [] = pad4 n
  rw [splitOnChar_append hd', splitOnChar_of_not_mem (dash_not_mem_pad4 n)]
  rfl

theorem tokSeq_renderToken {d : String} (hd : ∀ c ∈ d.data, c.isDigit = true)
    (n : Nat) : tokSeq (renderToken d n) = n := by
  unfold tokSeq
  rw [tokenSuffix_renderToken hd, parseDigits_pad4]
  rfl

theorem parse_suffix_renderToken {d : String} (hd : ∀ c ∈ d.data, c.isDigit = true)
    (n : Nat) : parseDigits (tokenSuffix (renderToken d n)) = some n := by
  rw [tokenSuffix_renderToken hd, parseDigits_pad4]

theorem likeToday_renderToken {t d : String} (ht : dayWF t) (hd : dayWF d) (n : Nat) :
    likeToday t (renderToken d n) = true ↔ t = d := by
  unfold likeToday renderToken
  rw [decide_eq_true_iff]
  constructor
  · intro hpre
    obtain ⟨s, hs⟩ := hpre
    obtain ⟨h1, -⟩ := List.append_inj hs (ht.1.trans hd.1.symm)
    cases t
    cases d
    exact congrArg String.mk h1
  · rintro rfl
    exact ⟨_, rfl⟩

theorem renderToken_inj {d d' : String} {n n' : Nat} (hd : dayWF d) (hd' : dayWF d')
    (h : renderToken d n = renderToken d' n') : d = d' ∧ n = n' := by
  have hdata : d.data ++ '-' :: pad4 n = d'.data ++ '-' :: pad4 n' :=
    congrArg String.data h
  obtain ⟨h1, h2⟩ := List.append_inj hdata (hd.1.trans hd'.1.symm)
  have hpad : pad4 n = pad4 n' := by
    injection h2
  have hn : n = n' := by
    have := parseDigits_pad4 n
    rw [hpad, parseDigits_pad4] at this
    exact (Option.some_inj.mp this).symm
  refine ⟨?_, hn⟩
  cases d
  cases d'
  exact congrArg String.mk h1

/-! ### Generic list helpers -/

theorem pairwise_rel_getLast {α : Type _} {R : α → α → Prop} :
    ∀ {l : List α} {x : α}, l.Pairwise R → l.getLast? = some x →
      ∀ y ∈ l, y = x ∨ R y x
  | [], x, _, h => by simp at h
  | [a], x, _, h => by
    simp only [List.getLast?_singleton, Option.some_inj] at h
    subst h
    intro y hy
    rw [List.mem_singleton] at hy
    exact Or.inl hy
  | a :: b :: l, x, hp, h => by
    rw [List.getLast?_cons_cons] at h
    intro y hy
    rcases List.mem_cons.mp hy with rfl | hy'
    · right
      have hx : x ∈ b :: l := List.mem_of_getLast?_eq_some h
      exact (List.pairwise_cons.mp hp).1 x hx
    · exact pairwise_rel_getLast (List.pairwise_cons.mp hp).2 h y hy'

theorem le_foldr_max {l : List Nat} {x : Nat} (h : x ∈ l) : x ≤ l.foldr max 0 := by
  induction l with
  | nil => simp at h
  | cons a l ih =>
    rcases List.mem_cons.mp h with rfl | h'
    · exact le_max_left _ _
    · exact le_trans (ih h') (le_max_right _ _)

theorem foldr_max_le {l : List Nat} {k : Nat} (h : ∀ x ∈ l, x ≤ k) :
    l.foldr max 0 ≤ k := by
  induction l with
  | nil => simp
  | cons a l ih =>
    rw [List.foldr_cons, max_le_iff]
    exact ⟨h a (List.mem_cons_self a l), ih (fun x hx => h x (List.mem_cons_of_mem a hx))⟩

/-! ### Queue helpers -/

theorem maxPosIn_cons (e : Queue) (q : List Queue) (opd : OPDType) :
    maxPosIn (e :: q) opd
      = if e.opd_type = opd then max e.position (maxPosIn q opd) else maxPosIn q opd := by
  unfold maxPosIn
  by_cases h : e.opd_type = opd
  · simp [List.filter_cons, h]
  · simp [List.filter_cons, h]

theorem le_maxPosIn {q : List Queue} {e : Queue} (he : e ∈ q) {opd : OPDType}
    (h : e.opd_type = opd) : e.position ≤ maxPosIn q opd := by
  induction q with
  | nil => simp at he
  | cons a q ih =>
    rw [maxPosIn_cons]
    rcases List.mem_cons.mp he with rfl | he'
    · rw [if_pos h]
      exact le_max_left _ _
    · by_cases ha : a.opd_type = opd
      · rw [if_pos ha]
        exact le_trans (ih he') (le_max_right _ _)
      · rw [if_neg ha]
        exact ih he'

theorem maxPosIn_congr {q q' : List Queue}
    (h : q.map queueKey = q'.map queueKey) (opd : OPDType) :
    maxPosIn q opd = maxPosIn q' opd := by
  induction q generalizing q' with
  | nil =>
    cases q' with
    | nil => rfl
    | cons e' q'' => simp at h
  | cons e q ih =>
    cases q' with
    | nil => simp at h
    | cons e' q'' =>
      simp only [List.map_cons, List.cons.injEq] at h
      obtain ⟨hk, ht⟩ := h
      have h1 : e.opd_type = e'.opd_type := congrArg Prod.fst hk
      have h2 : e.position = e'.position := congrArg (fun x => x.2.2) hk
      rw [maxPosIn_cons, maxPosIn_cons, h1, h2, ih ht]

theorem posOrdered_of_key_eq {q q' : List Queue}
    (h : q.map queueKey = q'.map queueKey) (hp : posOrdered q) : posOrdered q' := by
  unfold posOrdered at hp ⊢
  have h1 : (q.map queueKey).Pairwise
      (fun a b : OPDType × Nat × Nat => a.1 = b.1 → a.2.2 < b.2.2) :=
    List.pairwise_map.mpr hp
  rw [h] at h1
  exact List.pairwise_map.mp h1

theorem updateFirst_map_key {q : List Queue} {pred : Queue → Bool} {f : Queue → Queue}
    (hf : ∀ e, queueKey (f e) = queueKey e) :
    (updateFirst q pred f).map queueKey = q.map queueKey := by
  induction q with
  | nil => rfl
  | cons e q ih =>
    rw [updateFirst]
    by_cases h : pred e
    · simp [h, hf]
    · simp only [if_neg h, List.map_cons]
      rw [ih]

theorem updateFirst_of_none {q : List Queue} {pred : Queue → Bool} {f : Queue → Queue}
    (h : ∀ e ∈ q, pred e = false) : updateFirst q pred f = q := by
  induction q with
  | nil => rfl
  | cons e q ih =>
    rw [updateFirst, if_neg ?_, ih (fun x hx => h x (List.mem_cons_of_mem e hx))]
    rw [h e (List.mem_cons_self e q)]
    simp

theorem updateFirst_mem_of_find? {q : List Queue} {pred : Queue → Bool}
    {f : Queue → Queue} {e : Queue} (h : q.find? pred = some e) :
    f e ∈ updateFirst q pred f := by
  induction q with
  | nil => simp at h
  | cons a q ih =>
    by_cases ha : pred a
    · rw [List.find?_cons_of_pos _ ha] at h
      injection h with h
      subst h
      rw [updateFirst, if_pos ha]
      exact List.mem_cons_self _ _
    · rw [List.find?_cons_of_neg _ ha] at h
      rw [updateFirst, if_neg ha]
      exact List.mem_cons_of_mem a (ih h)

/-! ### Patient-table helpers -/

theorem find?_patient_facts {l : List Patient} {pid : Nat} {p : Patient}
    (h : l.find? (fun q => q.id == pid) = some p) : p ∈ l ∧ p.id = pid := by
  refine ⟨List.mem_of_find?_eq_some h, ?_⟩
  have := List.find?_some h
  simpa using this

theorem id_unique {l : List Patient} (hnd : l.Pairwise (fun a b => a.id ≠ b.id))
    {a b : Patient} (ha : a ∈ l) (hb : b ∈ l) (hid : a.id = b.id) : a = b := by
  by_contra hne
  have hsym : Symmetric (fun a b : Patient => a.id ≠ b.id) :=
    fun x y h e => h e.symm
  exact hnd.forall hsym ha hb hne hid

theorem mem_map_update {l : List Patient} {pid : Nat} {p1 : Patient} :
    ∀ x ∈ l.map (fun q => if q.id == pid then p1 else q),
      x = p1 ∨ (x ∈ l ∧ (x.id == pid) = false) := by
  intro x hx
  rcases List.mem_map.mp hx with ⟨q, hq, rfl⟩
  by_cases h : (q.id == pid) = true
  · rw [if_pos h]
    exact Or.inl rfl
  · rw [if_neg h]
    exact Or.inr ⟨hq, by simpa using h⟩

theorem map_update_other {l : List Patient} {pid : Nat} {p1 : Patient} :
    ∀ q ∈ l, ¬ q.id = pid → q ∈ l.map (fun r => if r.id == pid then p1 else r) := by
  intro q hq hne
  refine List.mem_map.mpr ⟨q, hq, ?_⟩
  rw [if_neg (by simpa using hne)]

theorem find?_map_update {l : List Patient} {pid : Nat} {p p1 : Patient}
    (hfind : l.find? (fun q => q.id == pid) = some p) (hid : p1.id = p.id) :
    (l.map (fun q => if q.id == pid then p1 else q)).find? (fun q => q.id == pid)
      = some p1 := by
  induction l with
  | nil => simp at hfind
  | cons a l ih =>
    rw [List.find?_cons] at hfind
    by_cases ha : (a.id == pid) = true
    · rw [ha] at hfind
      injection hfind with hfind
      subst hfind
      have hb : (p1.id == pid) = true := by
        rw [hid]
        exact ha
      rw [List.map_cons, if_pos ha, List.find?_cons, hb]
    · rw [Bool.eq_false_iff.mpr ha] at hfind
      rw [List.map_cons, if_neg ha, List.find?_cons, Bool.eq_false_iff.mpr ha]
      exact ih hfind

/-! ### Queue-order helpers for the invariant -/

theorem posOrdered_append_max {q : List Queue} (hp : posOrdered q) (e : Queue)
    (he : e.position = maxPosIn q e.opd_type + 1) : posOrdered (q ++ [e]) := by
  unfold posOrdered at hp ⊢
  rw [List.pairwise_append]
  refine ⟨hp, List.pairwise_singleton _ _, ?_⟩
  intro a ha b hb
  rw [List.mem_singleton] at hb
  subst hb
  intro hopd
  have hle := le_maxPosIn ha hopd
  omega

theorem posOrdered_filter {q : List Queue} (hp : posOrdered q) (pred : Queue → Bool) :
    posOrdered (q.filter pred) := by
  unfold posOrdered at hp ⊢
  exact hp.filter _

theorem posOrdered_updateFirst {q : List Queue} (hp : posOrdered q) (pred : Queue → Bool)
    {f : Queue → Queue} (hf : ∀ e, queueKey (f e) = queueKey e) :
    posOrdered (updateFirst q pred f) :=
  posOrdered_of_key_eq (updateFirst_map_key hf).symm hp

/-! ### Invariant preservation -/

theorem patients_update_inv {db : DB} (hinv : Inv db) {pid : Nat} {p p1 : Patient}
    (hfind : db.patients.find? (fun q => q.id == pid) = some p)
    (hid : p1.id = p.id) (htok : p1.token_number = p.token_number)
    (hcomp : p1.current_status = PatientStatus.COMPLETED → p1.completed_at.isSome = true)
    {queue' : List Queue} (hq : posOrdered queue') (flow' : List PatientFlow) :
    Inv { patients := db.patients.map (fun q => if q.id == pid then p1 else q),
          queue := queue', flow := flow', nextId := db.nextId } := by
  obtain ⟨hpmem, hpid⟩ := find?_patient_facts hfind
  have hfid : ∀ q : Patient, (if q.id == pid then p1 else q).id = q.id := by
    intro q
    by_cases h : (q.id == pid) = true
    · have h' : q.id = pid := by simpa using h
      rw [if_pos h, hid, hpid]
      exact h'.symm
    · rw [if_neg h]
  have hftok : ∀ q ∈ db.patients,
      (if q.id == pid then p1 else q).token_number = q.token_number := by
    intro q hq'
    by_cases h : (q.id == pid) = true
    · have h' : q.id = pid := by simpa using h
      have hqp : q = p := id_unique hinv.ids_nodup hq' hpmem (h'.trans hpid.symm)
      rw [if_pos h, htok, hqp]
    · rw [if_neg h]
  refine ⟨?_, ?_, ?_, ?_, hq, ?_⟩
  · intro x hx
    rcases mem_map_update x hx with rfl | ⟨hxl, -⟩
    · rw [hid, hpid]
      rw [← hpid]
      exact hinv.ids_lt p hpmem
    · exact hinv.ids_lt x hxl
  · refine List.pairwise_map.mpr (hinv.ids_nodup.imp ?_)
    intro a b hab
    rw [hfid a, hfid b]
    exact hab
  · intro x hx
    rcases mem_map_update x hx with rfl | ⟨hxl, -⟩
    · obtain ⟨d, n, hd, ht⟩ := hinv.tokens_wf p hpmem
      exact ⟨d, n, hd, htok.trans ht⟩
    · exact hinv.tokens_wf x hxl
  · refine List.pairwise_map.mpr (hinv.tokens_mono.imp_of_mem ?_)
    intro a b ha hb hr d n m hd h1 h2
    rw [hftok a ha] at h1
    rw [hftok b hb] at h2
    exact hr d n m hd h1 h2
  · intro x hx hst
    rcases mem_map_update x hx with rfl | ⟨hxl, -⟩
    · exact hcomp hst
    · exact hinv.completed_stamped x hxl hst

theorem seq_le_maxSeqToday {db : DB} (_hinv : Inv db) {today : String} (hday : dayWF today)
    {q : Patient} (hq : q ∈ db.patients) {n : Nat}
    (ht : q.token_number = renderToken today n) : n ≤ maxSeqToday db today := by
  unfold maxSeqToday
  apply le_foldr_max
  refine List.mem_map.mpr ⟨q, ?_, ?_⟩
  · refine List.mem_filter.mpr ⟨hq, ?_⟩
    rw [ht]
    exact (likeToday_renderToken hday hday n).mpr rfl
  · rw [ht, tokSeq_renderToken hday.2]

theorem generate_eq_max (db : DB) (today : String) (hinv : Inv db) (hday : dayWF today) :
    generate_token_number db today
      = some (renderToken today (maxSeqToday db today + 1)) := by
  unfold generate_token_number maxSeqToday
  cases hF : (db.patients.filter (fun p => likeToday today p.token_number)).getLast? with
  | none =>
    rw [List.getLast?_eq_none_iff] at hF
    rw [hF]
    rfl
  | some p =>
    have hpF := List.mem_of_getLast?_eq_some hF
    obtain ⟨hpmem, hlike⟩ := List.mem_filter.mp hpF
    obtain ⟨d, k, hd, htok⟩ := hinv.tokens_wf p hpmem
    have htoday : today = d := by
      rw [htok] at hlike
      exact (likeToday_renderToken hday hd k).mp hlike
    subst htoday
    dsimp only
    rw [htok, parse_suffix_renderToken hday.2]
    have hmax : ((db.patients.filter (fun p => likeToday today p.token_number)).map
        (fun p => tokSeq p.token_number)).foldr max 0 = k := by
      apply le_antisymm
      · apply foldr_max_le
        intro x hx
        rcases List.mem_map.mp hx with ⟨q, hqF, rfl⟩
        rcases pairwise_rel_getLast (hinv.tokens_mono.filter _) hF q hqF with rfl | hrel
        · rw [htok, tokSeq_renderToken hday.2]
        · obtain ⟨hqmem, hqlike⟩ := List.mem_filter.mp hqF
          obtain ⟨dq, nq, hdq, htq⟩ := hinv.tokens_wf q hqmem
          have hqd : today = dq := by
            rw [htq] at hqlike
            exact (likeToday_renderToken hday hdq nq).mp hqlike
          subst hqd
          rw [htq, tokSeq_renderToken hday.2]
          exact le_of_lt (hrel today nq k hday htq htok)
      · apply le_foldr_max
        refine List.mem_map.mpr ⟨p, hpF, ?_⟩
        rw [htok, tokSeq_renderToken hday.2]
    rw [hmax]

theorem inv_empty : Inv emptyDB := by
  constructor <;> simp [emptyDB, posOrdered]

theorem inv_applyOp {db : DB} (hinv : Inv db) (op : Op) (hwf : op.wf) :
    Inv (applyOp db op) := by
  cases op with
  | register name age phone today now =>
    have hday : dayWF today := hwf
    have hgen := generate_eq_max db today hinv hday
    simp only [applyOp, register_patient, hgen]
    refine ⟨?_, ?_, ?_, ?_, hinv.pos_mono, ?_⟩
    · intro p hp
      rcases List.mem_append.mp hp with h | h
      · exact lt_trans (hinv.ids_lt p h) (Nat.lt_succ_self _)
      · rw [List.mem_singleton] at h
        subst h
        exact Nat.lt_succ_self _
    · rw [List.pairwise_append]
      refine ⟨hinv.ids_nodup, List.pairwise_singleton _ _, ?_⟩
      intro a ha b hb
      rw [List.mem_singleton] at hb
      subst hb
      intro e
      have hlt := hinv.ids_lt a ha
      rw [show a.id = db.nextId from e] at hlt
      exact lt_irrefl _ hlt
    · intro p hp
      rcases List.mem_append.mp hp with h | h
      · exact hinv.tokens_wf p h
      · rw [List.mem_singleton] at h
        subst h
        exact ⟨today, maxSeqToday db today + 1, hday, rfl⟩
    · rw [List.pairwise_append]
      refine ⟨hinv.tokens_mono, List.pairwise_singleton _ _, ?_⟩
      intro a ha b hb
      rw [List.mem_singleton] at hb
      subst hb
      intro d n m hd h1 h2
      obtain ⟨hde, hme⟩ :=
        renderToken_inj hday hd (show renderToken today (maxSeqToday db today + 1)
          = renderToken d m from h2)
      subst hde
      have hn := seq_le_maxSeqToday hinv hday ha h1
      omega
    · intro p hp
      rcases List.mem_append.mp hp with h | h
      · exact hinv.completed_stamped p h
      · rw [List.mem_singleton] at h
        subst h
        intro hst
        exact absurd (show PatientStatus.PENDING = PatientStatus.COMPLETED from hst)
          (by decide)
  | allocate pid opd =>
    cases hfind : db.patients.find? (fun p => p.id == pid) with
    | none =>
      simp only [applyOp, allocate_opd, hfind]
      exact hinv
    | some patient =>
      simp only [applyOp, allocate_opd, hfind]
      refine patients_update_inv hinv hfind ?_ ?_ ?_ ?_ _
      · rfl
      · rfl
      · intro h
        exact hinv.completed_stamped patient (find?_patient_facts hfind).1 h
      · exact posOrdered_append_max hinv.pos_mono _ rfl
  | setStatus pid st notes now =>
    cases hfind : db.patients.find? (fun p => p.id == pid) with
    | none =>
      simp only [applyOp, update_patient_status, hfind, Option.getD_none]
      exact hinv
    | some patient =>
      simp only [applyOp, update_patient_status, hfind, Option.getD_some]
      refine patients_update_inv hinv hfind ?_ ?_ ?_ ?_ _
      · split_ifs <;> rfl
      · split_ifs <;> rfl
      · split_ifs with h1 h2
        · intro h
          have h' : st = PatientStatus.COMPLETED := h
          rw [h'] at h1
          exact absurd h1 (by decide)
        · intro h
          rfl
        · intro h
          exact absurd (show st = PatientStatus.COMPLETED from h) h2
      · refine posOrdered_updateFirst ?_ _ (fun e => rfl)
        split_ifs with h1
        · exact posOrdered_filter hinv.pos_mono _
        · exact hinv.pos_mono
  | refer pid t =>
    cases hfind : db.patients.find? (fun p => p.id == pid) with
    | none =>
      simp only [applyOp, refer_patient, hfind, Option.getD_none]
      exact hinv
    | some patient =>
      cases hopd : patient.allocated_opd with
      | none =>
        simp only [applyOp, refer_patient, hfind, hopd, Option.getD_some]
        refine patients_update_inv hinv hfind ?_ ?_ ?_ ?_ _
        · rfl
        · rfl
        · intro h
          exact absurd (show PatientStatus.REFERRED = PatientStatus.COMPLETED from h)
            (by decide)
        · split_ifs with hfound
          · exact posOrdered_updateFirst hinv.pos_mono _ (fun e => rfl)
          · exact posOrdered_append_max hinv.pos_mono _ rfl
      | some f =>
        simp only [applyOp, refer_patient, hfind, hopd, Option.getD_some]
        refine patients_update_inv hinv hfind ?_ ?_ ?_ ?_ _
        · rfl
        · rfl
        · intro h
          exact absurd (show PatientStatus.REFERRED = PatientStatus.COMPLETED from h)
            (by decide)
        · have hq1 : posOrdered (updateFirst db.queue
              (fun e => e.patient_id == pid && e.opd_type == f)
              (fun e => { e with status := PatientStatus.REFERRED })) :=
            posOrdered_updateFirst hinv.pos_mono _ (fun e => rfl)
          split_ifs with hfound
          · exact posOrdered_updateFirst hq1 _ (fun e => rfl)
          · exact posOrdered_append_max hq1 _ rfl
  | endVisit pid now =>
    cases hfind : db.patients.find? (fun p => p.id == pid) with
    | none =>
      simp only [applyOp, end_patient_visit, hfind, Option.getD_none]
      exact hinv
    | some patient =>
      simp only [applyOp, end_patient_visit, hfind, Option.getD_some]
      refine patients_update_inv hinv hfind ?_ ?_ ?_ ?_ _
      · rfl
      · rfl
      · intro h
        rfl
      · exact posOrdered_filter hinv.pos_mono _

theorem inv_reachable {db : DB} (h : Reachable db) : Inv db := by
  induction h with
  | empty => exact inv_empty
  | step db op hr hwf ih => exact inv_applyOp ih op hwf

/-! ### Reachability of the example states -/

theorem reach_exDB1 : Reachable exDB1 :=
  Reachable.step _ _ Reachable.empty (show dayWF "20260101" by decide)

theorem reach_exDB2 : Reachable exDB2 :=
  Reachable.step _ _ reach_exDB1 trivial

theorem reach_exDB3 : Reachable exDB3 :=
  Reachable.step _ _ reach_exDB2 trivial

theorem reach_exDBRef : Reachable exDBRef :=
  Reachable.step _ _ reach_exDB3 trivial

theorem reach_exDBDil1 : Reachable exDBDil1 :=
  Reachable.step _ _ reach_exDB2 trivial

theorem reach_exDBDil2 : Reachable exDBDil2 :=
  Reachable.step _ _ reach_exDBDil1 trivial

theorem reach_exDBPend : Reachable exDBPend :=
  Reachable.step _ _ reach_exDB3 trivial

/-! ### Inversion lemmas for the handlers -/

theorem allocate_opd_eq_some {db : DB} {pid : Nat} {opd : OPDType} {db' : DB} {pos : Nat}
    (h : allocate_opd db pid opd = some (db', pos)) :
    ∃ patient, db.patients.find? (fun p => p.id == pid) = some patient
      ∧ pos = maxPosIn db.queue opd + 1
      ∧ db' = { db with
          patients := db.patients.map (fun q => if q.id == pid then
            { patient with
              allocated_opd := some opd,
              current_room := some ("opd_" ++ opd.value) } else q),
          queue := db.queue
            ++ [⟨opd, pid, maxPosIn db.queue opd + 1, PatientStatus.PENDING, none⟩],
          flow := db.flow ++ [⟨pid, some "registration", some ("opd_" ++ opd.value),
            PatientStatus.PENDING, none⟩] } := by
  unfold allocate_opd at h
  cases hfind : db.patients.find? (fun p => p.id == pid) with
  | none =>
    rw [hfind] at h
    exact absurd h (by simp)
  | some patient =>
    rw [hfind] at h
    refine ⟨patient, rfl, ?_, ?_⟩
    · have := congrArg (fun x => (Option.map Prod.snd x).getD 0) h
      simpa using this.symm
    · have := congrArg (fun x => (Option.map Prod.fst x).getD db) h
      simpa using this.symm

theorem update_patient_status_eq_some {db : DB} {pid : Nat} {st : PatientStatus}
    {notes : Option String} {now : Nat} {db' : DB}
    (h : update_patient_status db pid st notes now = some db') :
    ∃ patient, db.patients.find? (fun p => p.id == pid) = some patient
      ∧ db' = { db with
          patients := db.patients.map (fun q => if q.id == pid then
            (if st = PatientStatus.DILATED then
              { patient with
                current_status := st,
                is_dilated := true,
                dilation_time := some now }
            else if st = PatientStatus.COMPLETED then
              { patient with current_status := st, completed_at := some now }
            else { patient with current_status := st }) else q),
          queue := updateFirst
            (if st = PatientStatus.COMPLETED then
              db.queue.filter (fun e => ! queueMatch e pid patient.allocated_opd)
            else db.queue)
            (fun e => queueMatch e pid patient.allocated_opd)
            (fun e => { e with status := st, updated_at := some now }),
          flow := db.flow ++ [⟨pid, patient.current_room, none, st, notes⟩] } := by
  unfold update_patient_status at h
  cases hfind : db.patients.find? (fun p => p.id == pid) with
  | none =>
    rw [hfind] at h
    exact absurd h (by simp)
  | some patient =>
    rw [hfind] at h
    refine ⟨patient, rfl, ?_⟩
    have := congrArg (fun x => x.getD db) h
    simpa using this.symm

theorem refer_patient_eq_some {db : DB} {pid : Nat} {t : OPDType} {db' : DB}
    (h : refer_patient db pid t = some db') :
    ∃ patient, db.patients.find? (fun p => p.id == pid) = some patient
      ∧ db' = { db with
          patients := db.patients.map (fun q => if q.id == pid then
            { patient with
              referred_from := patient.allocated_opd.map OPDType.value,
              referred_to := some t.value,
              current_status := PatientStatus.REFERRED } else q),
          queue :=
            (fun queue1 =>
              if (queue1.find? (fun e => e.patient_id == pid && e.opd_type == t)).isSome then
                updateFirst queue1 (fun e => e.patient_id == pid && e.opd_type == t)
                  (fun e => { e with status := PatientStatus.REFERRED })
              else
                queue1 ++ [⟨t, pid, maxPosIn queue1 t + 1, PatientStatus.REFERRED, none⟩])
            (match patient.allocated_opd with
             | some f =>
               updateFirst db.queue (fun e => e.patient_id == pid && e.opd_type == f)
                 (fun e => { e with status := PatientStatus.REFERRED })
             | none => db.queue),
          flow := db.flow ++ [⟨pid,
            patient.allocated_opd.map (fun f => "opd_" ++ f.value),
            some ("opd_" ++ t.value), PatientStatus.REFERRED,
            some ("Referred from " ++
              (match patient.allocated_opd with
               | some f => f.value
               | none => "registration") ++ " to " ++ t.value)⟩] } := by
  unfold refer_patient at h
  cases hfind : db.patients.find? (fun p => p.id == pid) with
  | none =>
    rw [hfind] at h
    exact absurd h (by simp)
  | some patient =>
    rw [hfind] at h
    refine ⟨patient, rfl, ?_⟩
    have := congrArg (fun x => x.getD db) h
    simpa using this.symm

theorem end_patient_visit_eq_some {db : DB} {pid : Nat} {now : Nat} {db' : DB}
    (h : end_patient_visit db pid now = some db') :
    ∃ patient, db.patients.find? (fun p => p.id == pid) = some patient
      ∧ db' = { db with
          patients := db.patients.map (fun q => if q.id == pid then
            { patient with
              current_status := PatientStatus.COMPLETED,
              completed_at := some now,
              current_room := none,
              allocated_opd := none,
              referred_from := none,
              referred_to := none } else q),
          queue := db.queue.filter (fun e => ! (e.patient_id == pid)),
          flow := db.flow ++ [⟨pid, patient.current_room, some "completed",
            PatientStatus.COMPLETED, some "Patient visit completed"⟩] } := by
  unfold end_patient_visit at h
  cases hfind : db.patients.find? (fun p => p.id == pid) with
  | none =>
    rw [hfind] at h
    exact absurd h (by simp)
  | some patient =>
    rw [hfind] at h
    refine ⟨patient, rfl, ?_⟩
    have := congrArg (fun x => x.getD db) h
    simpa using this.symm

/-! ### More updateFirst helpers -/

theorem updateFirst_mem_or {q : List Queue} {pred : Queue → Bool} {f : Queue → Queue}
    {e : Queue} (he : e ∈ q) :
    e ∈ updateFirst q pred f ∨ f e ∈ updateFirst q pred f := by
  induction q with
  | nil => simp at he
  | cons a q ih =>
    rw [updateFirst]
    by_cases ha : pred a
    · rw [if_pos ha]
      rcases List.mem_cons.mp he with rfl | he'
      · exact Or.inr (List.mem_cons_self _ _)
      · exact Or.inl (List.mem_cons_of_mem _ he')
    · rw [if_neg ha]
      rcases List.mem_cons.mp he with rfl | he'
      · exact Or.inl (List.mem_cons_self _ _)
      · rcases ih he' with h | h
        · exact Or.inl (List.mem_cons_of_mem _ h)
        · exact Or.inr (List.mem_cons_of_mem _ h)

/-! ### Length of decimal representations -/

theorem natToDigits_length_le : ∀ (k n : Nat), 1 ≤ k → n < 10 ^ k →
    (natToDigits n).length ≤ k := by
  intro k
  induction k with
  | zero =>
    intro n h1 h2
    omega
  | succ k ih =>
    intro n h1 h2
    rw [natToDigits]
    split
    · next h => simp
    · next h =>
      rw [List.length_append, List.length_singleton]
      have hk : 1 ≤ k := by
        rcases Nat.eq_zero_or_pos k with rfl | hp
        · rw [pow_one] at h2
          omega
        · exact hp
      have hlt : n / 10 < 10 ^ k := by
        rw [Nat.div_lt_iff_lt_mul (by omega)]
        calc n < 10 ^ (k + 1) := h2
        _ = 10 ^ k * 10 := by rw [pow_succ]
      have := ih (n / 10) hk hlt
      omega

theorem queueKey_setStatus (st : PatientStatus) (u : Option Nat) :
    ∀ x : Queue, queueKey { x with status := st, updated_at := u } = queueKey x :=
  fun _ => rfl

theorem queueKey_setStatusOnly (st : PatientStatus) :
    ∀ x : Queue, queueKey { x with status := st } = queueKey x :=
  fun _ => rfl

theorem key_mem_of_mem_updateFirst {X : List Queue} {pred : Queue → Bool}
    {f : Queue → Queue} (hf : ∀ x, queueKey (f x) = queueKey x) {e : Queue}
    (he : e ∈ updateFirst X pred f) : queueKey e ∈ X.map queueKey := by
  have := List.mem_map_of_mem queueKey he
  rwa [updateFirst_map_key hf] at this

theorem key_mem_of_filter {X : List Queue} {pred : Queue → Bool} {e : Queue}
    (he : queueKey e ∈ (X.filter pred).map queueKey) :
    queueKey e ∈ X.map queueKey :=
  (List.Sublist.map queueKey (List.filter_sublist X)).subset he

theorem natToDigits_one : natToDigits 1 = ['1'] := by
  rw [natToDigits]
  rw [dif_pos (by omega)]
  decide

theorem pad4_one : pad4 1 = ['0', '0', '0', '1'] := by
  unfold pad4
  rw [natToDigits_one]
  rfl

theorem register_patient_queue {db : DB} {name : String} {age : Nat}
    {phone : Option String} {today : String} {now : Nat} {db2 : DB} {newP : Patient}
    (h : register_patient db name age phone today now = some (db2, newP)) :
    db2.queue = db.queue := by
  unfold register_patient at h
  cases hg : generate_token_number db today with
  | none =>
    rw [hg] at h
    exact absurd h (by simp)
  | some tok =>
    rw [hg] at h
    dsimp only at h
    rw [Option.some_inj, Prod.mk.injEq] at h
    obtain ⟨h1, -⟩ := h
    rw [← h1]

/-! ### Claim C3: token allocation -/

/-- C3: `generate_token_number` issues today's highest existing parsed suffix
plus one (the suffix of the last registered patient with today's prefix is the
day's maximum), or suffix 1 when no token of today exists; consequently tokens
issued by successive same-day registrations are strictly increasing, suffixes
are zero-padded to four digits, and the first token of a new day is
`"<today>-0001"` regardless of other days' values. -/
theorem c3_token_allocation (db : DB) (today : String)
    (hreach : Reachable db) (hday : dayWF today) :
    generate_token_number db today
      = some (renderToken today (maxSeqToday db today + 1))
    ∧ (∀ q ∈ db.patients, ∀ n, q.token_number = renderToken today n →
        n ≤ maxSeqToday db today)
    ∧ (∀ name age phone now db' newP,
        register_patient db name age phone today now = some (db', newP) →
          newP.token_number = renderToken today (maxSeqToday db today + 1)
          ∧ ∀ q ∈ db.patients, likeToday today q.token_number = true →
              tokSeq q.token_number < tokSeq newP.token_number)
    ∧ ((∀ q ∈ db.patients, likeToday today q.token_number = false) →
        generate_token_number db today = some (renderToken today 1)
          ∧ pad4 1 = ['0', '0', '0', '1'])
    ∧ (∀ m, 1 ≤ m → m ≤ 9999 → (pad4 m).length = 4) := by
  have hinv := inv_reachable hreach
  have hgen := generate_eq_max db today hinv hday
  refine ⟨hgen, ?_, ?_, ?_, ?_⟩
  · intro q hq n hn
    exact seq_le_maxSeqToday hinv hday hq hn
  · intro name age phone now db' newP h
    unfold register_patient at h
    rw [hgen] at h
    dsimp only at h
    rw [Option.some_inj, Prod.mk.injEq] at h
    obtain ⟨h1, h2⟩ := h
    subst h2
    refine ⟨rfl, ?_⟩
    intro q hq hlike
    obtain ⟨d, k, hd, ht⟩ := hinv.tokens_wf q hq
    have hde : today = d := by
      rw [ht] at hlike
      exact (likeToday_renderToken hday hd k).mp hlike
    subst hde
    have hk := seq_le_maxSeqToday hinv hday hq ht
    rw [ht, tokSeq_renderToken hday.2]
    show k < tokSeq (renderToken today (maxSeqToday db today + 1))
    rw [tokSeq_renderToken hday.2]
    omega
  · intro hnone
    have hempty : db.patients.filter (fun p => likeToday today p.token_number) = [] :=
      List.filter_eq_nil_iff.mpr (fun a ha => by simp [hnone a ha])
    have hmax : maxSeqToday db today = 0 := by
      unfold maxSeqToday
      rw [hempty]
      rfl
    rw [hgen, hmax]
    exact ⟨rfl, pad4_one⟩
  · intro m h1 h2
    unfold pad4
    rw [List.length_append, List.length_replicate]
    have h4 : (10 : Nat) ^ 4 = 10000 := by norm_num
    have hle := natToDigits_length_le 4 m (by omega) (by rw [h4]; omega)
    have hpos : 1 ≤ (natToDigits m).length := by
      rcases h : natToDigits m with _ | ⟨c, cs⟩
      · exact absurd h (natToDigits_ne_nil m)
      · simp
    omega

theorem c3_token_allocation_witness :
    Reachable exDB1 ∧ dayWF "20260102"
      ∧ generate_token_number exDB1 "20260102"
          = some (renderToken "20260102" (maxSeqToday exDB1 "20260102" + 1)) :=
  ⟨reach_exDB1, by decide,
    (c3_token_allocation exDB1 "20260102" reach_exDB1 (by decide)).1⟩

/-! ### Claim C4: queue positions -/

/-- C4: per department, queue positions are strictly increasing in creation
order (hence unique); a freshly created entry (by allocation or by
referral-target creation) always takes `max(existing positions in the
department) + 1` computed on the current table — so after deletions the next
position is `max(remaining) + 1` and gaps persist; no request ever changes the
(department, patient, position) triple of a surviving entry. -/
theorem c4_queue_positions (db : DB) (hreach : Reachable db) :
    posOrdered db.queue
    ∧ (∀ opd, (db.queue.filter (fun e => e.opd_type == opd)).Pairwise
        (fun a b => a.position ≠ b.position))
    ∧ (∀ pid opd db' pos, allocate_opd db pid opd = some (db', pos) →
        pos = maxPosIn db.queue opd + 1
        ∧ db'.queue = db.queue
            ++ [⟨opd, pid, maxPosIn db.queue opd + 1, PatientStatus.PENDING, none⟩]
        ∧ ∀ e ∈ db.queue, e.opd_type = opd → e.position < pos)
    ∧ (∀ pid t db', refer_patient db pid t = some db' →
        (∀ e ∈ db.queue, ¬(e.patient_id = pid ∧ e.opd_type = t)) →
        ∃ q1, db'.queue = q1
            ++ [⟨t, pid, maxPosIn db.queue t + 1, PatientStatus.REFERRED, none⟩]
          ∧ q1.map queueKey = db.queue.map queueKey)
    ∧ (∀ op : Op, ∀ e ∈ (applyOp db op).queue,
        queueKey e ∈ db.queue.map queueKey
          ∨ e.position = maxPosIn db.queue e.opd_type + 1) := by
  have hinv := inv_reachable hreach
  refine ⟨hinv.pos_mono, ?_, ?_, ?_, ?_⟩
  · intro opd
    refine (hinv.pos_mono.filter _).imp_of_mem ?_
    intro a b ha hb hr
    obtain ⟨-, ha2⟩ := List.mem_filter.mp ha
    obtain ⟨-, hb2⟩ := List.mem_filter.mp hb
    have haopd : a.opd_type = opd := by simpa using ha2
    have hbopd : b.opd_type = opd := by simpa using hb2
    have := hr (haopd.trans hbopd.symm)
    omega
  · intro pid opd db' pos h
    obtain ⟨patient, hfind, hpos, hdb'⟩ := allocate_opd_eq_some h
    subst hdb'
    refine ⟨hpos, rfl, ?_⟩
    intro e he hopd
    have := le_maxPosIn he hopd
    omega
  · intro pid t db' h hmiss
    obtain ⟨patient, hfind, hdb'⟩ := refer_patient_eq_some h
    cases hopd : patient.allocated_opd with
    | none =>
      rw [hopd] at hdb'
      dsimp only at hdb'
      have hnone : db.queue.find? (fun e => e.patient_id == pid && e.opd_type == t)
          = none := by
        rw [List.find?_eq_none]
        intro x hx hpred
        rw [Bool.and_eq_true] at hpred
        exact hmiss x hx ⟨by simpa using hpred.1, by simpa using hpred.2⟩
      rw [hnone] at hdb'
      rw [if_neg (by simp)] at hdb'
      subst hdb'
      exact ⟨db.queue, rfl, rfl⟩
    | some f =>
      rw [hopd] at hdb'
      dsimp only at hdb'
      have hkey : (updateFirst db.queue
          (fun e => e.patient_id == pid && e.opd_type == f)
          (fun e => { e with status := PatientStatus.REFERRED })).map queueKey
          = db.queue.map queueKey := updateFirst_map_key (fun e => rfl)
      have hnone : (updateFirst db.queue
          (fun e => e.patient_id == pid && e.opd_type == f)
          (fun e => { e with status := PatientStatus.REFERRED })).find?
            (fun e => e.patient_id == pid && e.opd_type == t) = none := by
        rw [List.find?_eq_none]
        intro x hx hpred
        rw [Bool.and_eq_true] at hpred
        have hxk : queueKey x ∈ db.queue.map queueKey := by
          rw [← hkey]
          exact List.mem_map_of_mem _ hx
        rcases List.mem_map.mp hxk with ⟨y, hy, hk⟩
        refine hmiss y hy ⟨?_, ?_⟩
        · have : y.patient_id = x.patient_id := congrArg (fun z => z.2.1) hk
          rw [this]
          simpa using hpred.1
        · have : y.opd_type = x.opd_type := congrArg Prod.fst hk
          rw [this]
          simpa using hpred.2
      rw [hnone] at hdb'
      rw [if_neg (by simp)] at hdb'
      subst hdb'
      refine ⟨_, ?_, hkey⟩
      rw [maxPosIn_congr hkey t]
  · intro op
    cases op with
    | register name age phone today now =>
      intro e he
      left
      cases hres : register_patient db name age phone today now with
      | none =>
        have hq : applyOp db (Op.register name age phone today now) = db := by
          simp only [applyOp, hres]
        rw [hq] at he
        exact List.mem_map_of_mem _ he
      | some pr =>
        obtain ⟨db2, newP⟩ := pr
        have hq : applyOp db (Op.register name age phone today now) = db2 := by
          simp only [applyOp, hres]
        rw [hq, register_patient_queue hres] at he
        exact List.mem_map_of_mem _ he
    | allocate pid opd =>
      intro e he
      cases hres : allocate_opd db pid opd with
      | none =>
        have hq : applyOp db (Op.allocate pid opd) = db := by
          simp only [applyOp, hres]
        rw [hq] at he
        exact Or.inl (List.mem_map_of_mem _ he)
      | some pr =>
        obtain ⟨db2, pos⟩ := pr
        obtain ⟨patient, hfind, hpos, hdb'⟩ := allocate_opd_eq_some hres
        have hq : applyOp db (Op.allocate pid opd) = db2 := by
          simp only [applyOp, hres]
        rw [hq, hdb'] at he
        rcases List.mem_append.mp he with h | h
        · exact Or.inl (List.mem_map_of_mem _ h)
        · rw [List.mem_singleton] at h
          subst h
          exact Or.inr rfl
    | setStatus pid st notes now =>
      intro e he
      cases hres : update_patient_status db pid st notes now with
      | none =>
        have hq : applyOp db (Op.setStatus pid st notes now) = db := by
          simp only [applyOp, hres, Option.getD_none]
        rw [hq] at he
        exact Or.inl (List.mem_map_of_mem _ he)
      | some db2 =>
        obtain ⟨patient, hfind, hdb'⟩ := update_patient_status_eq_some hres
        have hq : applyOp db (Op.setStatus pid st notes now) = db2 := by
          simp only [applyOp, hres, Option.getD_some]
        rw [hq, hdb'] at he
        dsimp only at he
        left
        have hk := key_mem_of_mem_updateFirst (queueKey_setStatus st (some now)) he
        split_ifs at hk with hst
        · exact key_mem_of_filter hk
        · exact hk
    | refer pid t =>
      intro e he
      cases hres : refer_patient db pid t with
      | none =>
        have hq : applyOp db (Op.refer pid t) = db := by
          simp only [applyOp, hres, Option.getD_none]
        rw [hq] at he
        exact Or.inl (List.mem_map_of_mem _ he)
      | some db2 =>
        obtain ⟨patient, hfind, hdb'⟩ := refer_patient_eq_some hres
        have hq : applyOp db (Op.refer pid t) = db2 := by
          simp only [applyOp, hres, Option.getD_some]
        rw [hq, hdb'] at he
        dsimp only at he
        have hkey1 : (match patient.allocated_opd with
            | some f =>
              updateFirst db.queue (fun e => e.patient_id == pid && e.opd_type == f)
                (fun e => { e with status := PatientStatus.REFERRED })
            | none => db.queue).map queueKey = db.queue.map queueKey := by
          cases patient.allocated_opd with
          | none => rfl
          | some f => exact updateFirst_map_key (fun e => rfl)
        split_ifs at he with hfound
        · left
          have hk := key_mem_of_mem_updateFirst
            (queueKey_setStatusOnly PatientStatus.REFERRED) he
          rw [hkey1] at hk
          exact hk
        · rcases List.mem_append.mp he with h | h
          · left
            have := List.mem_map_of_mem queueKey h
            rw [hkey1] at this
            exact this
          · rw [List.mem_singleton] at h
            subst h
            right
            exact congrArg (fun m => m + 1) (maxPosIn_congr hkey1 t)
    | endVisit pid now =>
      intro e he
      cases hres : end_patient_visit db pid now with
      | none =>
        have hq : applyOp db (Op.endVisit pid now) = db := by
          simp only [applyOp, hres, Option.getD_none]
        rw [hq] at he
        exact Or.inl (List.mem_map_of_mem _ he)
      | some db2 =>
        obtain ⟨patient, hfind, hdb'⟩ := end_patient_visit_eq_some hres
        have hq : applyOp db (Op.endVisit pid now) = db2 := by
          simp only [applyOp, hres, Option.getD_some]
        rw [hq, hdb'] at he
        exact Or.inl (key_mem_of_filter (List.mem_map_of_mem _ he))

theorem c4_queue_positions_witness :
    Reachable exDB2 ∧ posOrdered exDB2.queue :=
  ⟨reach_exDB2, (c4_queue_positions exDB2 reach_exDB2).1⟩

/-! ### Claim C1: the completion equivalence -/

/-- C1 (amended): of the claimed three-way equivalence, the direction every
operation preserves is: a patient whose `current_status` is COMPLETED always
has `completed_at` set.  The full equivalence fails on the code (see the
counterexample: a freshly registered patient has all four fields cleared while
PENDING; the generic COMPLETED update stamps `completed_at` without clearing
`allocated_opd`; a later status update leaves `completed_at` set with a
non-COMPLETED status). -/
theorem c1_completed_stamped (db : DB) (hreach : Reachable db) :
    ∀ p ∈ db.patients, p.current_status = PatientStatus.COMPLETED →
      p.completed_at.isSome = true :=
  fun p hp hst => (inv_reachable hreach).completed_stamped p hp hst

theorem c1_completed_stamped_witness :
    Reachable exDB3 ∧ ∀ p ∈ exDB3.patients,
      p.current_status = PatientStatus.COMPLETED → p.completed_at.isSome = true :=
  ⟨reach_exDB3, c1_completed_stamped exDB3 reach_exDB3⟩

/-- C1 counterexample: in reachable states the claimed equivalence fails in
all three directions: after registration all four fields are cleared but the
status is PENDING and `completed_at` unset; after the generic COMPLETED
update, `completed_at` is set and the status is COMPLETED but `allocated_opd`
is still set; after a subsequent PENDING update, `completed_at` is set while
the status is not COMPLETED. -/
theorem c1_equivalence_counterexample :
    Reachable exDB1 ∧ Reachable exDB3 ∧ Reachable exDBPend
    ∧ (∃ p ∈ exDB1.patients, p.allocated_opd = none ∧ p.current_room = none
        ∧ p.referred_from = none ∧ p.referred_to = none
        ∧ p.completed_at = none ∧ p.current_status ≠ PatientStatus.COMPLETED)
    ∧ (∃ p ∈ exDB3.patients, p.current_status = PatientStatus.COMPLETED
        ∧ p.completed_at.isSome = true ∧ p.allocated_opd ≠ none)
    ∧ (∃ p ∈ exDBPend.patients, p.completed_at.isSome = true
        ∧ p.current_status ≠ PatientStatus.COMPLETED) :=
  ⟨reach_exDB1, reach_exDB3, reach_exDBPend, by decide, by decide, by decide⟩

/-! ### Claim C5: dilation flag and timestamp -/

theorem update_field_monotone {db : DB} (hinv : Inv db) {pid : Nat}
    {patient p1 : Patient}
    (hfind : db.patients.find? (fun q => q.id == pid) = some patient)
    (hid1 : p1.id = pid)
    (hdil : patient.is_dilated = true → p1.is_dilated = true)
    (hdilt : patient.dilation_time.isSome = true → p1.dilation_time.isSome = true)
    {p p' : Patient} (hp : p ∈ db.patients)
    (hp' : p' ∈ db.patients.map (fun q => if q.id == pid then p1 else q))
    (hid : p'.id = p.id) :
    (p.is_dilated = true → p'.is_dilated = true)
    ∧ (p.dilation_time.isSome = true → p'.dilation_time.isSome = true) := by
  obtain ⟨hpm, hpidq⟩ := find?_patient_facts hfind
  rcases mem_map_update p' hp' with rfl | ⟨hmem, hne⟩
  · have hpe : p = patient :=
      id_unique hinv.ids_nodup hp hpm ((hid.symm.trans hid1).trans hpidq.symm)
    subst hpe
    exact ⟨hdil, hdilt⟩
  · have hppe : p' = p := id_unique hinv.ids_nodup hmem hp hid
    subst hppe
    exact ⟨id, id⟩

theorem dilated_monotone {db : DB} (hinv : Inv db) (op : Op) :
    ∀ p ∈ db.patients, ∀ p' ∈ (applyOp db op).patients, p'.id = p.id →
      (p.is_dilated = true → p'.is_dilated = true)
      ∧ (p.dilation_time.isSome = true → p'.dilation_time.isSome = true) := by
  intro p hp p' hp' hid
  cases op with
  | register name age phone today now =>
    cases hres : register_patient db name age phone today now with
    | none =>
      have hq : applyOp db (Op.register name age phone today now) = db := by
        simp only [applyOp, hres]
      rw [hq] at hp'
      have hppe : p' = p := id_unique hinv.ids_nodup hp' hp hid
      subst hppe
      exact ⟨id, id⟩
    | some pr =>
      obtain ⟨db2, newP⟩ := pr
      have hq : applyOp db (Op.register name age phone today now) = db2 := by
        simp only [applyOp, hres]
      rw [hq] at hp'
      unfold register_patient at hres
      cases hg : generate_token_number db today with
      | none =>
        rw [hg] at hres
        exact absurd hres (by simp)
      | some tok =>
        rw [hg] at hres
        dsimp only at hres
        rw [Option.some_inj, Prod.mk.injEq] at hres
        obtain ⟨h1, -⟩ := hres
        rw [← h1] at hp'
        dsimp only at hp'
        rcases List.mem_append.mp hp' with hmem | hmem
        · have hppe : p' = p := id_unique hinv.ids_nodup hmem hp hid
          subst hppe
          exact ⟨id, id⟩
        · rw [List.mem_singleton] at hmem
          subst hmem
          have := hinv.ids_lt p hp
          rw [← hid] at this
          exact absurd this (lt_irrefl _)
  | allocate pid opd =>
    cases hres : allocate_opd db pid opd with
    | none =>
      have hq : applyOp db (Op.allocate pid opd) = db := by
        simp only [applyOp, hres]
      rw [hq] at hp'
      have hppe : p' = p := id_unique hinv.ids_nodup hp' hp hid
      subst hppe
      exact ⟨id, id⟩
    | some pr =>
      obtain ⟨db2, pos⟩ := pr
      obtain ⟨patient, hfind, hpos, hdb'⟩ := allocate_opd_eq_some hres
      have hq : applyOp db (Op.allocate pid opd) = db2 := by
        simp only [applyOp, hres]
      rw [hq, hdb'] at hp'
      dsimp only at hp'
      refine update_field_monotone hinv hfind ?_ ?_ ?_ hp hp' hid
      · exact (find?_patient_facts hfind).2
      · exact id
      · exact id
  | setStatus pid st notes now =>
    cases hres : update_patient_status db pid st notes now with
    | none =>
      have hq : applyOp db (Op.setStatus pid st notes now) = db := by
        simp only [applyOp, hres, Option.getD_none]
      rw [hq] at hp'
      have hppe : p' = p := id_unique hinv.ids_nodup hp' hp hid
      subst hppe
      exact ⟨id, id⟩
    | some db2 =>
      obtain ⟨patient, hfind, hdb'⟩ := update_patient_status_eq_some hres
      have hq : applyOp db (Op.setStatus pid st notes now) = db2 := by
        simp only [applyOp, hres, Option.getD_some]
      rw [hq, hdb'] at hp'
      dsimp only at hp'
      refine update_field_monotone hinv hfind ?_ ?_ ?_ hp hp' hid
      · split_ifs <;> exact (find?_patient_facts hfind).2
      · split_ifs <;> intro hx <;> first | rfl | exact hx
      · split_ifs <;> intro hx <;> first | rfl | exact hx
  | refer pid t =>
    cases hres : refer_patient db pid t with
    | none =>
      have hq : applyOp db (Op.refer pid t) = db := by
        simp only [applyOp, hres, Option.getD_none]
      rw [hq] at hp'
      have hppe : p' = p := id_unique hinv.ids_nodup hp' hp hid
      subst hppe
      exact ⟨id, id⟩
    | some db2 =>
      obtain ⟨patient, hfind, hdb'⟩ := refer_patient_eq_some hres
      have hq : applyOp db (Op.refer pid t) = db2 := by
        simp only [applyOp, hres, Option.getD_some]
      rw [hq, hdb'] at hp'
      dsimp only at hp'
      refine update_field_monotone hinv hfind ?_ ?_ ?_ hp hp' hid
      · exact (find?_patient_facts hfind).2
      · exact id
      · exact id
  | endVisit pid now =>
    cases hres : end_patient_visit db pid now with
    | none =>
      have hq : applyOp db (Op.endVisit pid now) = db := by
        simp only [applyOp, hres, Option.getD_none]
      rw [hq] at hp'
      have hppe : p' = p := id_unique hinv.ids_nodup hp' hp hid
      subst hppe
      exact ⟨id, id⟩
    | some db2 =>
      obtain ⟨patient, hfind, hdb'⟩ := end_patient_visit_eq_some hres
      have hq : applyOp db (Op.endVisit pid now) = db2 := by
        simp only [applyOp, hres, Option.getD_some]
      rw [hq, hdb'] at hp'
      dsimp only at hp'
      refine update_field_monotone hinv hfind ?_ ?_ ?_ hp hp' hid
      · exact (find?_patient_facts hfind).2
      · exact id
      · exact id

/-- C5 (amended): `is_dilated` is set by the DILATED transition and never
unset afterwards, and `dilation_time`, once set, never returns to `none`;
every DILATED transition (also a repeated one) sets `is_dilated := true`,
appends a FlowEvent, and updates the allocated department's queue entry when
one exists — but it overwrites `dilation_time` with the current time, so the
claimed "never overwritten" fails (see the counterexample). -/
theorem c5_dilation (db : DB) (hreach : Reachable db) :
    (∀ op : Op, ∀ p ∈ db.patients, ∀ p' ∈ (applyOp db op).patients, p'.id = p.id →
        (p.is_dilated = true → p'.is_dilated = true)
        ∧ (p.dilation_time.isSome = true → p'.dilation_time.isSome = true))
    ∧ (∀ pid notes now patient db',
        db.patients.find? (fun q => q.id == pid) = some patient →
        update_patient_status db pid PatientStatus.DILATED notes now = some db' →
          (∃ p', db'.patients.find? (fun q => q.id == pid) = some p'
            ∧ p'.is_dilated = true ∧ p'.dilation_time = some now
            ∧ p'.current_status = PatientStatus.DILATED)
          ∧ db'.flow = db.flow
              ++ [⟨pid, patient.current_room, none, PatientStatus.DILATED, notes⟩]
          ∧ (∀ e0, db.queue.find? (fun e => queueMatch e pid patient.allocated_opd)
                = some e0 →
              ({ e0 with status := PatientStatus.DILATED, updated_at := some now }
                : Queue) ∈ db'.queue)) := by
  have hinv := inv_reachable hreach
  constructor
  · intro op p hp p' hp' hid
    exact dilated_monotone hinv op p hp p' hp' hid
  · intro pid notes now patient db' hfind h
    obtain ⟨patient₀, hfind₀, hdb'⟩ := update_patient_status_eq_some h
    rw [hfind] at hfind₀
    injection hfind₀ with hpe
    subst hpe
    rw [if_pos rfl] at hdb'
    rw [if_neg (by decide)] at hdb'
    subst hdb'
    refine ⟨⟨_, find?_map_update hfind rfl, rfl, rfl, rfl⟩, rfl, ?_⟩
    intro e0 he0
    exact updateFirst_mem_of_find? he0

theorem c5_dilation_witness :
    Reachable exDB2
    ∧ (∃ p', exDBDil1.patients.find? (fun q => q.id == 1) = some p'
        ∧ p'.is_dilated = true ∧ p'.dilation_time = some 5
        ∧ p'.current_status = PatientStatus.DILATED) :=
  ⟨reach_exDB2,
    ((c5_dilation exDB2 reach_exDB2).2 1 none 5 exPatient2 exDBDil1 rfl rfl).1⟩

/-- C5 counterexample: a second DILATED transition at time 9 overwrites the
`dilation_time` that the first DILATED transition set at time 5. -/
theorem c5_dilation_counterexample :
    Reachable exDBDil1 ∧ Reachable exDBDil2
    ∧ exDBDil2 = applyOp exDBDil1 (Op.setStatus 1 PatientStatus.DILATED none 9)
    ∧ (exDBDil1.patients.find? (fun p => p.id == 1)).map Patient.dilation_time
        = some (some 5)
    ∧ (exDBDil2.patients.find? (fun p => p.id == 1)).map Patient.dilation_time
        = some (some 9) :=
  ⟨reach_exDBDil1, reach_exDBDil2, rfl, by decide, by decide⟩

/-! ### Claim C2: referral dual membership -/

/-- C2 (amended): after `refer(p, to)` on an existing patient whose
`allocated_opd` is `from`, the patient record carries
`referred_from = from.value`, `referred_to = to.value`, status REFERRED; a
QueueEntry for (`to`, p) exists with status REFERRED; and *when a QueueEntry
for (`from`, p) existed before the call*, a QueueEntry for (`from`, p) with
status REFERRED exists afterwards.  The unconditional origin-queue membership
that the claim states fails: the origin entry is only updated, never created
(see the counterexample, where a prior generic COMPLETED update had deleted
it). -/
theorem c2_referral_dual (db : DB) (pid : Nat) (fromD t : OPDType)
    (patient : Patient) (db' : DB)
    (hfind : db.patients.find? (fun p => p.id == pid) = some patient)
    (hopd : patient.allocated_opd = some fromD)
    (h : refer_patient db pid t = some db') :
    (∃ p', db'.patients.find? (fun q => q.id == pid) = some p'
      ∧ p'.referred_from = some fromD.value ∧ p'.referred_to = some t.value
      ∧ p'.current_status = PatientStatus.REFERRED)
    ∧ (∃ e ∈ db'.queue, e.patient_id = pid ∧ e.opd_type = t
        ∧ e.status = PatientStatus.REFERRED)
    ∧ (∀ e0 ∈ db.queue, e0.patient_id = pid → e0.opd_type = fromD →
        ∃ e ∈ db'.queue, e.patient_id = pid ∧ e.opd_type = fromD
          ∧ e.status = PatientStatus.REFERRED) := by
  obtain ⟨patient₀, hfind₀, hdb'⟩ := refer_patient_eq_some h
  rw [hfind] at hfind₀
  injection hfind₀ with hpe
  subst hpe
  rw [hopd] at hdb'
  dsimp only at hdb'
  subst hdb'
  refine ⟨⟨_, find?_map_update hfind rfl, rfl, rfl, rfl⟩, ?_, ?_⟩
  · by_cases hfound : ((updateFirst db.queue
        (fun e => e.patient_id == pid && e.opd_type == fromD)
        (fun e => { e with status := PatientStatus.REFERRED })).find?
          (fun e => e.patient_id == pid && e.opd_type == t)).isSome
    · rw [if_pos hfound]
      obtain ⟨e2, he2⟩ := Option.isSome_iff_exists.mp hfound
      have he2p := List.find?_some he2
      rw [Bool.and_eq_true] at he2p
      have h1 : e2.patient_id = pid := by simpa using he2p.1
      have h2 : e2.opd_type = t := by simpa using he2p.2
      exact ⟨_, updateFirst_mem_of_find? he2, h1, h2, rfl⟩
    · rw [if_neg hfound]
      refine ⟨_, List.mem_append_right _ (List.mem_singleton_self _), rfl, rfl, rfl⟩
  · intro e0 he0 hid0 hopd0
    have hex : ∃ e1, db.queue.find?
        (fun e => e.patient_id == pid && e.opd_type == fromD) = some e1 := by
      rw [← Option.isSome_iff_exists, List.find?_isSome]
      refine ⟨e0, he0, ?_⟩
      rw [Bool.and_eq_true]
      exact ⟨by simpa using hid0, by simpa using hopd0⟩
    obtain ⟨e1, he1⟩ := hex
    have he1q : ({ e1 with status := PatientStatus.REFERRED } : Queue)
        ∈ updateFirst db.queue (fun e => e.patient_id == pid && e.opd_type == fromD)
          (fun e => { e with status := PatientStatus.REFERRED }) :=
      updateFirst_mem_of_find? he1
    have he1p := List.find?_some he1
    rw [Bool.and_eq_true] at he1p
    have h1 : e1.patient_id = pid := by simpa using he1p.1
    have h2 : e1.opd_type = fromD := by simpa using he1p.2
    by_cases hfound : ((updateFirst db.queue
        (fun e => e.patient_id == pid && e.opd_type == fromD)
        (fun e => { e with status := PatientStatus.REFERRED })).find?
          (fun e => e.patient_id == pid && e.opd_type == t)).isSome
    · rw [if_pos hfound]
      rcases updateFirst_mem_or he1q with hm | hm
      · exact ⟨_, hm, h1, h2, rfl⟩
      · exact ⟨_, hm, h1, h2, rfl⟩
    · rw [if_neg hfound]
      exact ⟨_, List.mem_append_left _ he1q, h1, h2, rfl⟩

theorem c2_referral_dual_witness :
    ∃ e ∈ exDBRef2.queue, e.patient_id = 1 ∧ e.opd_type = OPDType.ent
      ∧ e.status = PatientStatus.REFERRED :=
  (c2_referral_dual exDB2 1 OPDType.eye OPDType.ent exPatient2 exDBRef2
    rfl rfl rfl).2.1

/-- C2 counterexample: a reachable state where the patient's `allocated_opd`
is `eye` but the eye queue entry was deleted by a prior generic COMPLETED
update; after `refer(p, ent)` no QueueEntry for (`eye`, p) exists, refuting the
claimed unconditional dual membership. -/
theorem c2_referral_counterexample :
    Reachable exDBRef
    ∧ (exDB3.patients.find? (fun p => p.id == 1)).map Patient.allocated_opd
        = some (some OPDType.eye)
    ∧ (refer_patient exDB3 1 OPDType.ent).isSome = true
    ∧ exDBRef = applyOp exDB3 (Op.refer 1 OPDType.ent)
    ∧ (∀ e ∈ exDBRef.queue, ¬ (e.patient_id = 1 ∧ e.opd_type = OPDType.eye)) :=
  ⟨reach_exDBRef, by decide, by decide, rfl, by decide⟩

/-! ### Claim C6: frame of the generic COMPLETED update -/

/-- C6: the generic COMPLETED status update deletes exactly the queue rows of
(the patient's currently allocated department, patient) — none at all when
`allocated_opd` is NULL; every queue entry of the patient in any other
department survives, as do all other patients' rows and queue entries. -/
theorem c6_completed_frame (db : DB) (pid : Nat) (notes : Option String) (now : Nat)
    (patient : Patient) (db' : DB)
    (hfind : db.patients.find? (fun p => p.id == pid) = some patient)
    (h : update_patient_status db pid PatientStatus.COMPLETED notes now = some db') :
    db'.queue = db.queue.filter (fun e => ! queueMatch e pid patient.allocated_opd)
    ∧ (∀ e ∈ db.queue, queueMatch e pid patient.allocated_opd = false → e ∈ db'.queue)
    ∧ (∀ e ∈ db.queue, e.patient_id ≠ pid → e ∈ db'.queue)
    ∧ (∀ q ∈ db.patients, q.id ≠ pid → q ∈ db'.patients) := by
  obtain ⟨patient₀, hfind₀, hdb'⟩ := update_patient_status_eq_some h
  rw [hfind] at hfind₀
  injection hfind₀ with hpe
  subst hpe
  rw [if_neg (show ¬(PatientStatus.COMPLETED = PatientStatus.DILATED) by decide),
    if_pos (rfl : PatientStatus.COMPLETED = PatientStatus.COMPLETED),
    if_pos (rfl : PatientStatus.COMPLETED = PatientStatus.COMPLETED)] at hdb'
  subst hdb'
  have hnomatch : ∀ e ∈ db.queue.filter
      (fun e => ! queueMatch e pid patient.allocated_opd),
      queueMatch e pid patient.allocated_opd = false := by
    intro e he
    have h3 := (List.mem_filter.mp he).2
    simpa using h3
  have hqeq : updateFirst
      (db.queue.filter (fun e => ! queueMatch e pid patient.allocated_opd))
      (fun e => queueMatch e pid patient.allocated_opd)
      (fun e => { e with status := PatientStatus.COMPLETED, updated_at := some now })
      = db.queue.filter (fun e => ! queueMatch e pid patient.allocated_opd) :=
    updateFirst_of_none hnomatch
  refine ⟨hqeq, ?_, ?_, ?_⟩
  · intro e he hm
    show e ∈ updateFirst _ _ _
    rw [hqeq]
    exact List.mem_filter.mpr ⟨he, by simp [hm]⟩
  · intro e he hne
    show e ∈ updateFirst _ _ _
    rw [hqeq]
    refine List.mem_filter.mpr ⟨he, ?_⟩
    simp [queueMatch, hne]
  · intro q hq hne
    exact map_update_other q hq hne

theorem c6_completed_frame_witness :
    exDB3.queue = exDB2.queue.filter
      (fun e => ! queueMatch e 1 exPatient2.allocated_opd) :=
  (c6_completed_frame exDB2 1 none 20 exPatient2 exDB3 rfl rfl).1

/-! ### Claim C7: end-of-visit reconciliation -/

/-- C7: after `endVisit(p)` no queue entry of the patient survives in any
department; the patient's allocation, room and referral fields are cleared;
the status is COMPLETED with `completed_at` stamped; and exactly one FlowEvent
with `to_room = "completed"` is appended. -/
theorem c7_end_visit (db : DB) (pid : Nat) (now : Nat)
    (patient : Patient) (db' : DB)
    (hfind : db.patients.find? (fun p => p.id == pid) = some patient)
    (h : end_patient_visit db pid now = some db') :
    (∀ e ∈ db'.queue, e.patient_id ≠ pid)
    ∧ db'.queue = db.queue.filter (fun e => ! (e.patient_id == pid))
    ∧ (∃ p', db'.patients.find? (fun q => q.id == pid) = some p'
        ∧ p'.current_status = PatientStatus.COMPLETED
        ∧ p'.completed_at = some now
        ∧ p'.allocated_opd = none ∧ p'.current_room = none
        ∧ p'.referred_from = none ∧ p'.referred_to = none)
    ∧ db'.flow = db.flow ++ [⟨pid, patient.current_room, some "completed",
        PatientStatus.COMPLETED, some "Patient visit completed"⟩] := by
  obtain ⟨patient₀, hfind₀, hdb'⟩ := end_patient_visit_eq_some h
  rw [hfind] at hfind₀
  injection hfind₀ with hpe
  subst hpe
  subst hdb'
  refine ⟨?_, rfl, ⟨_, find?_map_update hfind rfl, rfl, rfl, rfl, rfl, rfl, rfl⟩, rfl⟩
  intro e he heq
  have h2 := (List.mem_filter.mp he).2
  rw [heq] at h2
  simp at h2

theorem c7_end_visit_witness :
    (∀ e ∈ exDBEnd.queue, e.patient_id ≠ 1)
    ∧ (∃ p', exDBEnd.patients.find? (fun q => q.id == 1) = some p'
        ∧ p'.current_status = PatientStatus.COMPLETED
        ∧ p'.completed_at = some 40
        ∧ p'.allocated_opd = none ∧ p'.current_room = none
        ∧ p'.referred_from = none ∧ p'.referred_to = none) :=
  ⟨(c7_end_visit exDB2 1 40 exPatient2 exDBEnd rfl rfl).1,
    (c7_end_visit exDB2 1 40 exPatient2 exDBEnd rfl rfl).2.2.1⟩

/-! ### Claim C8: destination idempotence of referral -/

/-- C8: referring again to a target where a (to, p) queue entry already exists
creates no entry and changes no (department, patient, position) key — the
matching entry's status simply becomes REFERRED; when no such entry exists,
exactly one entry is appended, at the next position of the target department,
with status REFERRED. -/
theorem c8_refer_destination (db : DB) (pid : Nat) (t : OPDType)
    (patient : Patient) (db' : DB)
    (hfind : db.patients.find? (fun p => p.id == pid) = some patient)
    (h : refer_patient db pid t = some db') :
    ((∃ e ∈ db.queue, e.patient_id = pid ∧ e.opd_type = t) →
      db'.queue.map queueKey = db.queue.map queueKey
      ∧ db'.queue.length = db.queue.length
      ∧ ∃ e ∈ db'.queue, e.patient_id = pid ∧ e.opd_type = t
          ∧ e.status = PatientStatus.REFERRED)
    ∧ ((∀ e ∈ db.queue, ¬(e.patient_id = pid ∧ e.opd_type = t)) →
      ∃ q1, db'.queue = q1
          ++ [⟨t, pid, maxPosIn db.queue t + 1, PatientStatus.REFERRED, none⟩]
        ∧ q1.map queueKey = db.queue.map queueKey) := by
  obtain ⟨patient₀, hfind₀, hdb'⟩ := refer_patient_eq_some h
  rw [hfind] at hfind₀
  injection hfind₀ with hpe
  subst hpe
  dsimp only at hdb'
  set queue1 := (match patient.allocated_opd with
    | some f => updateFirst db.queue (fun e => e.patient_id == pid && e.opd_type == f)
        (fun e => { e with status := PatientStatus.REFERRED })
    | none => db.queue) with hq1
  have hkey1 : queue1.map queueKey = db.queue.map queueKey := by
    rw [hq1]
    cases patient.allocated_opd with
    | none => rfl
    | some f => exact updateFirst_map_key (queueKey_setStatusOnly _)
  subst hdb'
  constructor
  · intro hex
    obtain ⟨e0, he0, hid0, hopd0⟩ := hex
    have hsome : (queue1.find?
        (fun e => e.patient_id == pid && e.opd_type == t)).isSome := by
      rw [List.find?_isSome]
      have hkm : queueKey e0 ∈ queue1.map queueKey := by
        rw [hkey1]
        exact List.mem_map_of_mem _ he0
      rcases List.mem_map.mp hkm with ⟨y, hy, hk⟩
      refine ⟨y, hy, ?_⟩
      rw [Bool.and_eq_true]
      have hyp : y.patient_id = e0.patient_id := congrArg (fun z => z.2.1) hk
      have hyo : y.opd_type = e0.opd_type := congrArg Prod.fst hk
      exact ⟨by simp [hyp, hid0], by simp [hyo, hopd0]⟩
    rw [if_pos hsome]
    obtain ⟨e2, he2⟩ := Option.isSome_iff_exists.mp hsome
    have he2p := List.find?_some he2
    rw [Bool.and_eq_true] at he2p
    have hmap : (updateFirst queue1 (fun e => e.patient_id == pid && e.opd_type == t)
        (fun e => { e with status := PatientStatus.REFERRED })).map queueKey
        = db.queue.map queueKey := by
      rw [updateFirst_map_key (queueKey_setStatusOnly _), hkey1]
    refine ⟨hmap, ?_, ?_⟩
    · have hlen := congrArg List.length hmap
      simpa using hlen
    · exact ⟨_, updateFirst_mem_of_find? he2, by simpa using he2p.1,
        by simpa using he2p.2, rfl⟩
  · intro hmiss
    have hnone : queue1.find? (fun e => e.patient_id == pid && e.opd_type == t)
        = none := by
      rw [List.find?_eq_none]
      intro x hx hpred
      rw [Bool.and_eq_true] at hpred
      have hkm : queueKey x ∈ db.queue.map queueKey := by
        rw [← hkey1]
        exact List.mem_map_of_mem _ hx
      rcases List.mem_map.mp hkm with ⟨y, hy, hk⟩
      refine hmiss y hy ⟨?_, ?_⟩
      · have hyp : y.patient_id = x.patient_id := congrArg (fun z => z.2.1) hk
        rw [hyp]
        simpa using hpred.1
      · have hyo : y.opd_type = x.opd_type := congrArg Prod.fst hk
        rw [hyo]
        simpa using hpred.2
    rw [hnone, if_neg (by simp)]
    refine ⟨queue1, ?_, hkey1⟩
    rw [maxPosIn_congr hkey1 t]

theorem c8_refer_destination_witness :
    ∃ q1, exDBRef2.queue = q1
        ++ [⟨OPDType.ent, 1, maxPosIn exDB2.queue OPDType.ent + 1,
             PatientStatus.REFERRED, none⟩]
      ∧ q1.map queueKey = exDB2.queue.map queueKey :=
  (c8_refer_destination exDB2 1 OPDType.ent exPatient2 exDBRef2 rfl rfl).2
    (by decide)

/-! ### Claim C9: patient listing -/

/-- C9: with the latest flag the listing returns at most the five most
recently registered patients (newest first), independently of skip/limit,
with the status filter still applied; without the flag it pages the
registration-time-descending order with skip and limit. -/
theorem c9_get_patients (db : DB) (skip limit : Nat) (status : Option PatientStatus) :
    ∃ all : List Patient,
      all.Perm (match status with
        | some st => db.patients.filter (fun p => p.current_status == st)
        | none => db.patients)
      ∧ all.Pairwise (fun a b => b.registration_time ≤ a.registration_time)
      ∧ get_patients db skip limit status true = all.take 5
      ∧ get_patients db skip limit status false = (all.drop skip).take limit
      ∧ (get_patients db skip limit status true).length ≤ 5
      ∧ get_patients db skip limit status true = get_patients db 0 100 status true
      ∧ (∀ p ∈ get_patients db skip limit status true,
          ∀ st, status = some st → p.current_status = st)
      ∧ (∀ q, q ∈ (match status with
            | some st => db.patients.filter (fun p : Patient => p.current_status == st)
            | none => db.patients : List Patient) →
          q ∉ get_patients db skip limit status true →
          ∀ p ∈ get_patients db skip limit status true,
            q.registration_time ≤ p.registration_time) := by
  have htrans : ∀ a b c : Patient, regDesc a b = true → regDesc b c = true →
      regDesc a c = true := by
    intro a b c h1 h2
    unfold regDesc at *
    rw [decide_eq_true_iff] at h1 h2 ⊢
    omega
  have htotal : ∀ a b : Patient, (regDesc a b || regDesc b a) = true := by
    intro a b
    unfold regDesc
    rcases Nat.le_total b.registration_time a.registration_time with h | h
    · rw [Bool.or_eq_true]
      exact Or.inl (decide_eq_true h)
    · rw [Bool.or_eq_true]
      exact Or.inr (decide_eq_true h)
  set base : List Patient := (match status with
    | some st => db.patients.filter (fun p : Patient => p.current_status == st)
    | none => db.patients : List Patient) with hbase
  have hsortB := List.sorted_mergeSort htrans htotal base
  have hsort : (base.mergeSort regDesc).Pairwise
      (fun a b => b.registration_time ≤ a.registration_time) :=
    hsortB.imp (fun h => by
      unfold regDesc at h
      exact of_decide_eq_true h)
  refine ⟨base.mergeSort regDesc, List.mergeSort_perm base regDesc, hsort,
    rfl, rfl, ?_, rfl, ?_, ?_⟩
  · exact List.length_take_le 5 _
  · intro p hp st hst
    have hpq : p ∈ base := by
      have h1 := List.mem_of_mem_take hp
      rwa [List.mem_mergeSort] at h1
    rw [hbase, hst] at hpq
    simpa using (List.mem_filter.mp hpq).2
  · intro q hq hnot p hp
    have hqm : q ∈ base.mergeSort regDesc := List.mem_mergeSort.mpr hq
    have hsplit := List.take_append_drop 5 (base.mergeSort regDesc)
    have hqd : q ∈ (base.mergeSort regDesc).drop 5 := by
      have h1 : q ∈ (base.mergeSort regDesc).take 5
          ++ (base.mergeSort regDesc).drop 5 := by
        rw [hsplit]
        exact hqm
      rcases List.mem_append.mp h1 with h2 | h2
      · exact absurd h2 hnot
      · exact h2
    have hsort2 := hsort
    rw [← hsplit] at hsort2
    exact (List.pairwise_append.mp hsort2).2.2 p hp q hqd

theorem c9_get_patients_witness :
    (get_patients exDB1 0 100 none true).length ≤ 5 := by
  obtain ⟨all, -, -, -, -, h5, -⟩ := c9_get_patients exDB1 0 100 none
  exact h5

/-! ### Claim C10: invalid filters on the referred listing -/

/-- C10: `list_referred_patients` silently ignores a `from_opd` or `to_opd`
value that is not a valid department identifier: the result equals the result
with that filter omitted, and (absent effective filters) it is exactly the
REFERRED patients in registration-time-ascending order. -/
theorem c10_list_referred (db : DB) (fromS toS : Option String) :
    (∀ v, v ∉ validOpdValues →
      list_referred_patients db (some v) toS = list_referred_patients db none toS)
    ∧ (∀ v, v ∉ validOpdValues →
      list_referred_patients db fromS (some v) = list_referred_patients db fromS none)
    ∧ ∃ all : List Patient,
        all.Perm (db.patients.filter
          (fun p => p.current_status == PatientStatus.REFERRED))
        ∧ all.Pairwise (fun a b => a.registration_time ≤ b.registration_time)
        ∧ list_referred_patients db none none = all.map toReferredResponse := by
  have htrans : ∀ a b c : Patient, regAsc a b = true → regAsc b c = true →
      regAsc a c = true := by
    intro a b c h1 h2
    unfold regAsc at *
    rw [decide_eq_true_iff] at h1 h2 ⊢
    omega
  have htotal : ∀ a b : Patient, (regAsc a b || regAsc b a) = true := by
    intro a b
    unfold regAsc
    rcases Nat.le_total a.registration_time b.registration_time with h | h
    · rw [Bool.or_eq_true]
      exact Or.inl (decide_eq_true h)
    · rw [Bool.or_eq_true]
      exact Or.inr (decide_eq_true h)
  refine ⟨?_, ?_, ?_⟩
  · intro v hv
    simp only [list_referred_patients]
    rw [if_neg (fun hand => hv hand.2)]
  · intro v hv
    simp only [list_referred_patients]
    rw [if_neg (fun hand => hv hand.2)]
  · refine ⟨(db.patients.filter
      (fun p : Patient => p.current_status == PatientStatus.REFERRED)).mergeSort regAsc,
      List.mergeSort_perm _ _, ?_, rfl⟩
    have hsortB := List.sorted_mergeSort htrans htotal
      (db.patients.filter (fun p => p.current_status == PatientStatus.REFERRED))
    exact hsortB.imp (fun h => by
      unfold regAsc at h
      exact of_decide_eq_true h)

theorem c10_list_referred_witness :
    ("xyz" ∉ validOpdValues)
    ∧ list_referred_patients exDB1 (some "xyz") none
        = list_referred_patients exDB1 none none :=
  ⟨by decide, (c10_list_referred exDB1 (some "xyz") none).1 "xyz" (by decide)⟩

end EyeHospital
